import Mathlib

/-
Verification of the REEF battery/PV polling script
(src/template_data_fetch_script.py) against its specification.

The script is embedded shallowly:
  * Register / Server mirror the entries of the server_data list.
  * The SQL-building helpers (insertion_query, null_tuple) are translated
    literally as string/tuple builders.
  * The main double loop (servers, then registers) is embedded as an
    explicitly state-passing interpreter over an abstract database value,
    producing a trace of observable events (row insertions, read attempts,
    error prints, value prints, cell patches, timestamp writes).
  * Python exceptions that the script does not catch (struct errors from
    the payload decoder, NameError from an unassigned value variable)
    are embedded as Except.error, aborting the run, exactly as an uncaught
    exception kills the script.
  * The wall clock (datetime.now) is embedded as a counter incremented on
    every call, carried in the database state.
-/

/-- A Register Descriptor: one entry of the nested register dictionaries in
the script's server_data list (register name, address, count, data type,
units, conversion function). The conversion-function field of the source is
either the string marker for absence or a lambda; it is embedded as an
Option of a rational function. -/
structure Register where
  name : String
  address : Nat
  count : Nat
  dataType : String
  units : String
  conv : Option (ℚ → ℚ)

/-- A Server Descriptor: one entry of the script's server_data list
(server name, IP address, port number, unit id, register list). -/
structure Server where
  name : String
  ip : String
  port : Nat
  unit : Nat
  registers : List Register

/-- The server_data configuration list, copied from the source. The two
lambdas of the Power_meter entry are the source's unit conversions. -/
def server_data : List Server :=
  [ { name := "Inverter", ip := "144.173.77.190", port := 502, unit := 1,
      registers :=
        [ { name := "AC_power", address := 40091, count := 2,
            dataType := "float32", units := "W", conv := none },
          { name := "Total_AC_current", address := 40071, count := 2,
            dataType := "float32", units := "A", conv := none },
          { name := "Phase_voltage_AN", address := 40085, count := 2,
            dataType := "float32", units := "V", conv := none } ] },
    { name := "Power_meter", ip := "144.173.77.134", port := 502, unit := 5,
      registers :=
        [ { name := "System_current", address := 18440, count := 2,
            dataType := "uint32", units := "A", conv := some (fun x => x / 1000) },
          { name := "System_Ph_N_voltage", address := 18436, count := 2,
            dataType := "uint32", units := "V", conv := some (fun x => x / 100) },
          { name := "System_total_active_power", address := 18476, count := 2,
            dataType := "int32", units := "W", conv := none } ] } ]

/-
Decoder. The script delegates decoding to the external pymodbus
BinaryPayloadDecoder (fromRegisters with big-endian byte and word order,
then decode_32bit_float / decode_32bit_uint / decode_32bit_int); that
library is not part of src/, so the leaf decoding functions are modelled
from the specification. The dispatch on the data-type string is the
script's own if/elif chain and is embedded from the source.
-/

/-- Modelled from the spec: the Decoder (the external pymodbus payload
decoder, whose implementation is not part of src/) assembles the supplied
big-endian 16-bit words into one 32-bit pattern, and fails — ErrorKind
MalformedPayload — if the word count does not match the declared count for
the 32-bit wire types, which is 2. -/
def decodeWords32 (ws : List Nat) : Option Nat :=
  match ws with
  | [w0, w1] => some ((w0 % 2 ^ 16) * 2 ^ 16 + w1 % 2 ^ 16)
  | _ => none

/-- Modelled from the spec: interpretation of a 32-bit pattern as an
IEEE-754 single-precision value (sign, 8-bit exponent, 23-bit fraction),
exact for normal and subnormal values; the reserved exponent-255 patterns
(infinities, NaNs) are given by the same formula extended formally, since
no claim distinguishes them. -/
def decodeFloat32 (bits : Nat) : ℚ :=
  let b : Nat := bits % 2 ^ 32
  let sign : Nat := b / 2 ^ 31
  let expo : Nat := (b / 2 ^ 23) % 2 ^ 8
  let frac : Nat := b % 2 ^ 23
  let mag : ℚ :=
    if expo = 0 then (frac : ℚ) / 2 ^ 149
    else (((2 ^ 23 + frac) * 2 ^ expo : ℕ) : ℚ) / 2 ^ 150
  if sign = 1 then -mag else mag

/-- Modelled from the spec: interpretation of a 32-bit pattern as an
unsigned 32-bit integer. -/
def decodeUint32 (bits : Nat) : ℚ := ((bits % 2 ^ 32 : ℕ) : ℚ)

/-- Modelled from the spec: interpretation of a 32-bit pattern as a
two's-complement signed 32-bit integer. -/
def decodeInt32 (bits : Nat) : ℚ :=
  let u : Nat := bits % 2 ^ 32
  if u < 2 ^ 31 then (u : ℚ) else (u : ℚ) - 2 ^ 32

/-- Result of the script's decode step for one register: either a decode
method ran and produced a value, or the selected method failed on a
malformed payload (an exception the script does not catch), or the
data-type string matched no branch of the if/elif chain and the value
variable was not assigned at all. -/
inductive DecodeOutcome where
  | assigned (v : ℚ)
  | malformed
  | noDispatch
deriving DecidableEq

/-- The script's decode dispatch: the if/elif chain on the data-type
string (float32 / uint32 / int32), with no else branch. -/
def decodeDispatch (dataType : String) (ws : List Nat) : DecodeOutcome :=
  if dataType = "float32" then
    match decodeWords32 ws with
    | some bits => .assigned (decodeFloat32 bits)
    | none => .malformed
  else if dataType = "uint32" then
    match decodeWords32 ws with
    | some bits => .assigned (decodeUint32 bits)
    | none => .malformed
  else if dataType = "int32" then
    match decodeWords32 ws with
    | some bits => .assigned (decodeInt32 bits)
    | none => .malformed
  else .noDispatch

/-
Converter: conversion application and rounding (source lines 256-258).
Python rounds half to even; round3 embeds round(x, 3) on rationals.
-/

/-- Rounding of a rational to the nearest integer, ties to even, which is
the rounding rule of the round builtin applied by the script. -/
def roundHalfEven (q : ℚ) : ℤ :=
  let f := ⌊q⌋
  if q - f < 1 / 2 then f
  else if 1 / 2 < q - f then f + 1
  else if f % 2 = 0 then f else f + 1

/-- The script's round(value, 3): round to 3 decimal places. -/
def round3 (q : ℚ) : ℚ := (roundHalfEven (q * 1000) : ℚ) / 1000

/-- The script's conversion step: apply the conversion function when one
is declared, otherwise leave the value unchanged. -/
def applyConversion (conv : Option (ℚ → ℚ)) (v : ℚ) : ℚ :=
  match conv with
  | none => v
  | some f => f v

/-
SQL-string helpers (source lines 133-149), translated literally: the
source builds the INSERT statement and the matching tuple of nulls with
accumulating for-loops, embedded as foldl.
-/

/-- The insertion_query helper: builds the INSERT INTO statement for a
server, with one placeholder for the timestamp and one per register. -/
def insertion_query (s : Server) : String :=
  let str0 := "INSERT INTO " ++ s.name ++ " (timestamp"
  let str1 := s.registers.foldl (fun acc r => acc ++ ", " ++ r.name) str0
  let str2 := str1 ++ ") VALUES (?"
  let str3 := s.registers.foldl (fun acc _ => acc ++ ", ?") str2
  str3 ++ ")"

/-- The null_tuple helper: the tuple of nulls matching insertion_query,
one null for the timestamp and one per register. -/
def null_tuple (s : Server) : List (Option ℚ) :=
  s.registers.foldl (fun acc _ => acc ++ [none]) [none]

/-- Number of value placeholders in a query string. -/
def countQ (s : String) : Nat := s.data.count '?'

/-
Engine embedding: state, observable events, and the main double loop
(source lines 191-277).
-/

/-- One observable event of a run: a row insertion (with the id the
persistence layer assigned), a holding-register read attempt, an error
print, a value print, a cell patch (UPDATE of one column), or a
timestamp write (UPDATE of the timestamp column, carrying the clock
value written). -/
inductive Event where
  | insertRow (table : String) (rowId : Nat)
  | readAttempt (sname rname : String) (address count unitId : Nat)
  | printErr (msg : String)
  | printValue (sname rname : String) (v : ℚ) (units : String)
  | patch (table : String) (rowId : Nat) (column : String) (v : ℚ)
  | setTimestamp (table : String) (rowId : Nat) (time : Nat)
  | closeConn (sname : String)
deriving DecidableEq

/-- One database row: the table it lives in (one table per server), its
integer id, its timestamp column, and one cell per register column. -/
structure Row where
  id : Nat
  table : String
  timestamp : Option Nat
  cells : List (String × Option ℚ)
deriving DecidableEq

/-- The database: its rows (across all tables, in insertion order) and
the wall clock, incremented on every timestamp write so that successive
writes carry increasing times. -/
structure DB where
  rows : List Row
  clock : Nat
deriving DecidableEq

/-- The empty database. -/
def emptyDB : DB := { rows := [], clock := 0 }

/-- The rows of one server's table, in insertion order. -/
def tableRows (db : DB) (t : String) : List Row :=
  db.rows.filter (fun row => row.table = t)

/-- Outcome of one read_holding_registers call: a raised connection
exception, an error response (isError true), or the raw register words. -/
inductive ReadResult where
  | connClosed
  | errorResponse
  | ok (words : List Nat)

/-- The environment of a run: whether the connection attempt of the
server at each position succeeds, and the outcome of the read of each
register position of each server position. -/
structure World where
  connectOk : Nat → Bool
  readResult : Nat → Nat → ReadResult

/-- Executing insertion_query with null_tuple: append a row whose cells
are all null, with a null timestamp; the id returned by lastrowid is one
more than the number of rows already in that table (SQLite assigns
max id + 1, and rows are never deleted). -/
def insertNullRow (db : DB) (s : Server) : DB × Nat :=
  let rid := (tableRows db s.name).length + 1
  ({ db with
     rows := db.rows ++
       [{ id := rid, table := s.name, timestamp := none,
          cells := s.registers.map (fun r => (r.name, none)) }] }, rid)

/-- Set one named cell of a row. -/
def setCell (row : Row) (c : String) (v : Option ℚ) : Row :=
  { row with cells := row.cells.map (fun p => if p.1 = c then (p.1, v) else p) }

/-- The UPDATE table SET column = value WHERE id = rid statement. -/
def updateCell (db : DB) (t : String) (rid : Nat) (c : String) (v : ℚ) : DB :=
  { db with
    rows := db.rows.map (fun row =>
      if row.table = t ∧ row.id = rid then setCell row c (some v) else row) }

/-- The update_timestamp helper (source lines 153-157): UPDATE table SET
timestamp = now WHERE id = rid, advancing the clock. -/
def setTimestampDB (db : DB) (t : String) (rid : Nat) : DB :=
  { rows := db.rows.map (fun row =>
      if row.table = t ∧ row.id = rid then { row with timestamp := some db.clock } else row),
    clock := db.clock + 1 }

/-- The connection-error message of the source (line 215), without the
source's decorative quoting of the name. -/
def connectErrMsg (s : Server) : String := "Error connecting to " ++ s.name

/-- The read-error message of the source (line 231). -/
def readErrMsg (s : Server) (r : Register) : String :=
  "Error reading from " ++ s.name ++ "; " ++ r.name

/-- The mid-read connection-loss message of the source (line 237). -/
def closedErrMsg (s : Server) (r : Register) : String :=
  "Error: connection unexpectedly closed while reading " ++ s.name ++ "; " ++ r.name

/-- One iteration of the register loop (source lines 220-269), for the
register at position ri of the server at position si, over the row rid.
The vv argument is the current value of the value variable of the
script, which Python keeps across loop iterations: the decode dispatch
leaves it untouched when no branch matches, and the conversion/round
lines then read the stale value, or raise NameError (embedded as
Except.error) when it was never assigned. A struct error from a
malformed payload is likewise uncaught and aborts the run. -/
def processRegister (w : World) (si : Nat) (s : Server) (rid : Nat) (ri : Nat)
    (r : Register) (db : DB) (vv : Option ℚ) :
    Except Unit (List Event × DB × Option ℚ) :=
  let att := Event.readAttempt s.name r.name r.address r.count s.unit
  match w.readResult si ri with
  | .errorResponse =>
      .ok ([att, .printErr (readErrMsg s r), .setTimestamp s.name rid db.clock],
           setTimestampDB db s.name rid, vv)
  | .connClosed =>
      .ok ([att, .printErr (closedErrMsg s r), .setTimestamp s.name rid db.clock],
           setTimestampDB db s.name rid, vv)
  | .ok ws =>
      match decodeDispatch r.dataType ws with
      | .malformed => .error ()
      | .assigned v =>
          let v2 := round3 (applyConversion r.conv v)
          .ok ([att, .printValue s.name r.name v2 r.units, .patch s.name rid r.name v2],
               updateCell db s.name rid r.name v2, some v2)
      | .noDispatch =>
          match vv with
          | none => .error ()
          | some v0 =>
              let v2 := round3 (applyConversion r.conv v0)
              .ok ([att, .printValue s.name r.name v2 r.units, .patch s.name rid r.name v2],
                   updateCell db s.name rid r.name v2, some v2)

/-- The register loop: the registers of server s from position ri on. -/
def processRegisters (w : World) (si : Nat) (s : Server) (rid : Nat) (ri : Nat)
    (regs : List Register) (db : DB) (vv : Option ℚ) :
    Except Unit (List Event × DB × Option ℚ) :=
  match regs with
  | [] => .ok ([], db, vv)
  | r :: rest =>
      match processRegister w si s rid ri r db vv with
      | .error e => .error e
      | .ok (evs, db1, vv1) =>
          match processRegisters w si s rid (ri + 1) rest db1 vv1 with
          | .error e => .error e
          | .ok (evs2, db2, vv2) => .ok (evs ++ evs2, db2, vv2)

/-- One iteration of the server loop (source lines 191-277): insert the
null row, remember its id, attempt the connection; on failure print the
error, write the timestamp and move on; on success run the register
loop, then write the timestamp and close the connection. -/
def processServer (w : World) (si : Nat) (s : Server) (db : DB) (vv : Option ℚ) :
    Except Unit (List Event × DB × Option ℚ) :=
  let ins := insertNullRow db s
  let db0 := ins.1
  let rid := ins.2
  if w.connectOk si then
    match processRegisters w si s rid 0 s.registers db0 vv with
    | .error e => .error e
    | .ok (evs, db1, vv1) =>
        .ok (Event.insertRow s.name rid :: evs ++
              [Event.setTimestamp s.name rid db1.clock, Event.closeConn s.name],
             setTimestampDB db1 s.name rid, vv1)
  else
    .ok ([Event.insertRow s.name rid, Event.printErr (connectErrMsg s),
          Event.setTimestamp s.name rid db0.clock],
         setTimestampDB db0 s.name rid, vv)

/-- The server loop from position si on. -/
def runServers (w : World) (si : Nat) (servers : List Server) (db : DB)
    (vv : Option ℚ) : Except Unit (List Event × DB × Option ℚ) :=
  match servers with
  | [] => .ok ([], db, vv)
  | s :: rest =>
      match processServer w si s db vv with
      | .error e => .error e
      | .ok (evs, db1, vv1) =>
          match runServers w (si + 1) rest db1 vv1 with
          | .error e => .error e
          | .ok (evs2, db2, vv2) => .ok (evs ++ evs2, db2, vv2)

/-- One full poll cycle: the script's main block, started with the value
variable unassigned. -/
def runCycle (w : World) (servers : List Server) (db : DB) :
    Except Unit (List Event × DB) :=
  match runServers w 0 servers db none with
  | .error e => .error e
  | .ok (evs, db1, _) => .ok (evs, db1)

/-
Observation helpers over traces and rows, used to state the claims.
-/

/-- Is this event a read attempt. -/
def isReadAttempt : Event → Bool
  | .readAttempt _ _ _ _ _ => true
  | _ => false

/-- Is this event a timestamp write. -/
def isSetTimestamp : Event → Bool
  | .setTimestamp _ _ _ => true
  | _ => false

/-- Value of a named cell of a row: none when the row has no such
column, some of the stored nullable value otherwise. -/
def getCell (row : Row) (c : String) : Option (Option ℚ) :=
  (row.cells.find? (fun p => p.1 = c)).map (fun p => p.2)

/-- Table and id of a row, the key the UPDATE statements match on. -/
def rowKey (row : Row) : String × Nat := (row.table, row.id)

/-- A database is well formed when, in every table, the row ids are
exactly 1, 2, ..., n in insertion order — which is how SQLite assigns
lastrowid to this script's inserts, with no deletions. -/
def WFdb (db : DB) : Prop :=
  ∀ t ∈ db.rows.map (fun row => row.table),
    (tableRows db t).map (fun row => row.id) =
      List.range' 1 (tableRows db t).length

instance (db : DB) : Decidable (WFdb db) := by
  unfold WFdb; infer_instance

/-- Did this read outcome fail (either failure shape of the source:
error response or connection loss mid-read). -/
def isFailRead : ReadResult → Bool
  | .errorResponse => true
  | .connClosed => true
  | .ok _ => false

/-- The error message the source prints for a failed read, none for a
successful read. -/
def failMsg (rr : ReadResult) (s : Server) (r : Register) : Option String :=
  match rr with
  | .errorResponse => some (readErrMsg s r)
  | .connClosed => some (closedErrMsg s r)
  | .ok _ => none

/-- Number of failing reads among the registers of s from position ri
on, in world w at server position si. -/
def failCount (w : World) (si ri : Nat) : List Register → Nat
  | [] => 0
  | _ :: rest =>
      (if isFailRead (w.readResult si ri) then 1 else 0) + failCount w si (ri + 1) rest

/-- The value the pipeline stores for the register at position ri when
its read and decode succeed: decoded, then converted, then rounded;
none when the read fails or the decode does not produce a value. -/
def outcomeAt (w : World) (si ri : Nat) (r : Register) : Option ℚ :=
  match w.readResult si ri with
  | .ok ws =>
      match decodeDispatch r.dataType ws with
      | .assigned v => some (round3 (applyConversion r.conv v))
      | _ => none
  | _ => none

/-- The read-attempt events the register loop emits for the registers of
s from position ri on: one per register, in declared order. -/
def expectedReads (s : Server) : List Register → List Event
  | [] => []
  | r :: rest =>
      Event.readAttempt s.name r.name r.address r.count s.unit :: expectedReads s rest

/-- The read-attempt events of a whole cycle, stated from the spec: the
servers in configured order, within each reachable server its registers
in declared order, and no reads at all for an unreachable server. -/
def expectedAttempts (w : World) : Nat → List Server → List Event
  | _, [] => []
  | si, s :: rest =>
      (if w.connectOk si then expectedReads s s.registers else []) ++
        expectedAttempts w (si + 1) rest

/-
C9: the decode dispatch.
-/

/-- The word count a 32-bit payload must have. -/
lemma decodeWords32_isSome_iff (ws : List Nat) :
    (decodeWords32 ws).isSome ↔ ws.length = 2 := by
  match ws with
  | [] => simp [decodeWords32]
  | [_] => simp [decodeWords32]
  | [_, _] => simp [decodeWords32]
  | _ :: _ :: _ :: _ => simp [decodeWords32]

/-- C9: when the declared data type is float32, uint32 or int32, the
decode dispatch selects a decoding branch — the fall-through in which no
method runs is unreachable — and, on a payload of the declared two-word
count, assigns a value; for any other data type the dispatch selects no
branch and assigns nothing. -/
theorem C9_dispatch_exhaustive (dt : String) (ws : List Nat) :
    (dt ∈ ["float32", "uint32", "int32"] →
      decodeDispatch dt ws ≠ DecodeOutcome.noDispatch
      ∧ (ws.length = 2 → ∃ v, decodeDispatch dt ws = DecodeOutcome.assigned v))
    ∧ (dt ∉ ["float32", "uint32", "int32"] →
      decodeDispatch dt ws = DecodeOutcome.noDispatch) := by
  constructor
  · intro hmem
    have hsome : ws.length = 2 → ∃ bits, decodeWords32 ws = some bits := by
      intro h2
      rcases Option.isSome_iff_exists.mp ((decodeWords32_isSome_iff ws).mpr h2) with ⟨b, hb⟩
      exact ⟨b, hb⟩
    simp only [List.mem_cons, List.not_mem_nil, or_false] at hmem
    rcases hmem with h | h | h <;> subst h <;>
      simp only [decodeDispatch, if_true, if_false, String.reduceEq, reduceIte] <;>
      constructor
    · cases hw : decodeWords32 ws <;> simp
    · intro h2; rcases hsome h2 with ⟨b, hb⟩; rw [hb]; exact ⟨_, rfl⟩
    · cases hw : decodeWords32 ws <;> simp
    · intro h2; rcases hsome h2 with ⟨b, hb⟩; rw [hb]; exact ⟨_, rfl⟩
    · cases hw : decodeWords32 ws <;> simp
    · intro h2; rcases hsome h2 with ⟨b, hb⟩; rw [hb]; exact ⟨_, rfl⟩
  · intro hmem
    simp only [List.mem_cons, List.not_mem_nil, or_false, not_or] at hmem
    simp [decodeDispatch, hmem.1, hmem.2.1, hmem.2.2]

/-- C9 witness: the dispatch at concrete inputs. -/
theorem C9_dispatch_exhaustive_witness :
    (decodeDispatch "float32" [1, 2] ≠ DecodeOutcome.noDispatch
      ∧ (∃ v, decodeDispatch "float32" [1, 2] = DecodeOutcome.assigned v))
    ∧ decodeDispatch "bool16" [1, 2] = DecodeOutcome.noDispatch :=
  ⟨⟨((C9_dispatch_exhaustive "float32" [1, 2]).1 (by decide)).1,
    ((C9_dispatch_exhaustive "float32" [1, 2]).1 (by decide)).2 (by decide)⟩,
   (C9_dispatch_exhaustive "bool16" [1, 2]).2 (by decide)⟩

/-
C10: null_tuple matches insertion_query.
-/

/-- Placeholder counting distributes over string append. -/
lemma countQ_append (a b : String) : countQ (a ++ b) = countQ a + countQ b := by
  simp [countQ, String.data_append, List.count_append]

/-- The name-appending loop of insertion_query adds no placeholder when
no register name contains one. -/
lemma countQ_names (regs : List Register) (a : String)
    (h : ∀ r ∈ regs, countQ r.name = 0) :
    countQ (regs.foldl (fun acc r => acc ++ ", " ++ r.name) a) = countQ a := by
  induction regs generalizing a with
  | nil => rfl
  | cons r rest ih =>
      rw [List.foldl_cons, ih _ (fun x hx => h x (List.mem_cons_of_mem _ hx))]
      rw [countQ_append, countQ_append, h r (List.mem_cons_self _ _)]
      have hc : countQ ", " = 0 := by decide
      omega

/-- The placeholder-appending loop of insertion_query adds exactly one
placeholder per register. -/
lemma countQ_qmarks (regs : List Register) (a : String) :
    countQ (regs.foldl (fun acc _ => acc ++ ", ?") a) = countQ a + regs.length := by
  induction regs generalizing a with
  | nil => simp
  | cons r rest ih =>
      rw [List.foldl_cons, ih, countQ_append]
      have hc : countQ ", ?" = 1 := by decide
      simp only [List.length_cons]
      omega

/-- The null-appending loop of null_tuple adds one null per register. -/
lemma null_fold_length (regs : List Register) (init : List (Option ℚ)) :
    (regs.foldl (fun acc _ => acc ++ [none]) init).length = init.length + regs.length := by
  induction regs generalizing init with
  | nil => simp
  | cons r rest ih =>
      rw [List.foldl_cons, ih]
      simp only [List.length_append, List.length_cons, List.length_nil]
      omega

/-- The null-appending loop of null_tuple keeps every element null. -/
lemma null_fold_mem (regs : List Register) (init : List (Option ℚ))
    (h : ∀ x ∈ init, x = none) :
    ∀ x ∈ regs.foldl (fun acc _ => acc ++ [none]) init, x = none := by
  induction regs generalizing init with
  | nil => exact h
  | cons r rest ih =>
      rw [List.foldl_cons]
      refine ih _ ?_
      intro x hx
      rcases List.mem_append.mp hx with h1 | h1
      · exact h x h1
      · simpa using h1

/-- C10: when neither the server name nor any register name contains a
placeholder character, the tuple produced by null_tuple has one more
element than the register count, every element is null, and its length
equals the number of value placeholders of the INSERT statement produced
by insertion_query — the pending-record insertion supplies exactly one
null per column, the timestamp plus one per register. -/
theorem C10_null_tuple_matches_query (s : Server)
    (h : ∀ c ∈ s.name :: s.registers.map (fun r => r.name), countQ c = 0) :
    (null_tuple s).length = s.registers.length + 1
    ∧ (∀ x ∈ null_tuple s, x = none)
    ∧ countQ (insertion_query s) = (null_tuple s).length := by
  have hname : countQ s.name = 0 := h s.name (List.mem_cons_self _ _)
  have hregs : ∀ r ∈ s.registers, countQ r.name = 0 := by
    intro r hr
    exact h r.name (List.mem_cons_of_mem _ (List.mem_map_of_mem _ hr))
  have hlen : (null_tuple s).length = s.registers.length + 1 := by
    unfold null_tuple
    rw [null_fold_length]
    simp [Nat.add_comm]
  refine ⟨hlen, ?_, ?_⟩
  · intro x hx
    exact null_fold_mem s.registers [none] (by intro y hy; simpa using hy) x hx
  · unfold insertion_query
    rw [countQ_append, countQ_qmarks, countQ_append, countQ_names _ _ hregs,
        countQ_append, countQ_append, hname, hlen]
    have h1 : countQ "INSERT INTO " = 0 := by decide
    have h2 : countQ " (timestamp" = 0 := by decide
    have h3 : countQ ") VALUES (?" = 1 := by decide
    have h4 : countQ ")" = 0 := by decide
    omega

/-- C10 witness: the Inverter entry of server_data. -/
theorem C10_null_tuple_matches_query_witness :
    (null_tuple (server_data.get ⟨0, by decide⟩)).length =
        (server_data.get ⟨0, by decide⟩).registers.length + 1
    ∧ (∀ x ∈ null_tuple (server_data.get ⟨0, by decide⟩), x = none)
    ∧ countQ (insertion_query (server_data.get ⟨0, by decide⟩)) =
        (null_tuple (server_data.get ⟨0, by decide⟩)).length :=
  C10_null_tuple_matches_query (server_data.get ⟨0, by decide⟩) (by decide)

/-
Frame helpers: freshness of inserted ids in a well-formed database.
-/

/-- Mapping a function that fixes every element of a list is the
identity. -/
lemma map_id_of_mem {α : Type} (l : List α) (f : α → α) (h : ∀ x ∈ l, f x = x) :
    l.map f = l := by
  induction l with
  | nil => rfl
  | cons a t ih =>
      simp only [List.map_cons, h a (List.mem_cons_self _ _),
        ih (fun x hx => h x (List.mem_cons_of_mem _ hx))]

/-- In a well-formed database every row id is between 1 and the size of
its table. -/
lemma WFdb_id_le (db : DB) (hwf : WFdb db) :
    ∀ row ∈ db.rows, 1 ≤ row.id ∧ row.id ≤ (tableRows db row.table).length := by
  intro row hr
  have hmem : row ∈ tableRows db row.table := List.mem_filter.mpr ⟨hr, by simp⟩
  have hid : row.id ∈ (tableRows db row.table).map (fun r => r.id) :=
    List.mem_map_of_mem _ hmem
  rw [hwf row.table (List.mem_map_of_mem _ hr)] at hid
  have := List.mem_range'_1.mp hid
  omega

/-- In a well-formed database, no existing row of a server's table
carries the id the next insertion into that table will be assigned. -/
lemma fresh_id (db : DB) (s : Server) (hwf : WFdb db) :
    ∀ row ∈ db.rows, ¬(row.table = s.name ∧ row.id = (tableRows db s.name).length + 1) := by
  intro row hr hcontra
  have hle := WFdb_id_le db hwf row hr
  rw [hcontra.1] at hle
  omega

/-
C3: the connection-failure branch.
-/

/-- C3: when the connection attempt of a server fails, its turn consists
of exactly the null-row insertion, one connection-error message naming
the server, and one timestamp write; the database gains exactly that one
row, timestamped, with every register cell still null; no register read
is attempted; and the engine proceeds to the next server with the rest
of the cycle unchanged. -/
theorem C3_connection_failure (w : World) (si : Nat) (s : Server) (db : DB)
    (vv : Option ℚ) (hconn : w.connectOk si = false) (hwf : WFdb db) :
    ∃ rid t row db1,
      processServer w si s db vv =
        .ok ([Event.insertRow s.name rid, Event.printErr (connectErrMsg s),
              Event.setTimestamp s.name rid t], db1, vv)
      ∧ db1.rows = db.rows ++ [row]
      ∧ row.table = s.name ∧ row.id = rid ∧ row.timestamp = some t
      ∧ (∀ c ∈ row.cells, c.2 = none)
      ∧ row.cells.map (fun p => p.1) = s.registers.map (fun r => r.name)
      ∧ ([Event.insertRow s.name rid, Event.printErr (connectErrMsg s),
          Event.setTimestamp s.name rid t].filter isReadAttempt) = []
      ∧ (∀ rest, runServers w si (s :: rest) db vv =
          match runServers w (si + 1) rest db1 vv with
          | .error e => .error e
          | .ok (evs2, db2, vv2) =>
              .ok ([Event.insertRow s.name rid, Event.printErr (connectErrMsg s),
                    Event.setTimestamp s.name rid t] ++ evs2, db2, vv2)) := by
  have hps : processServer w si s db vv =
      .ok ([Event.insertRow s.name ((tableRows db s.name).length + 1),
            Event.printErr (connectErrMsg s),
            Event.setTimestamp s.name ((tableRows db s.name).length + 1) db.clock],
           setTimestampDB (insertNullRow db s).1 s.name (insertNullRow db s).2, vv) := by
    simp only [processServer, insertNullRow, hconn, Bool.false_eq_true, if_false]
  refine ⟨(tableRows db s.name).length + 1, db.clock,
    { id := (tableRows db s.name).length + 1, table := s.name,
      timestamp := some db.clock,
      cells := s.registers.map (fun r => (r.name, none)) },
    setTimestampDB (insertNullRow db s).1 s.name (insertNullRow db s).2,
    hps, ?_, rfl, rfl, rfl, ?_, ?_, ?_, ?_⟩
  · simp only [setTimestampDB, insertNullRow, List.map_append, List.map_cons,
      List.map_nil]
    rw [map_id_of_mem db.rows _ (by
      intro x hx
      rw [if_neg (fresh_id db s hwf x hx)])]
    simp
  · intro c hc
    rcases List.mem_map.mp hc with ⟨r, _, hr⟩
    exact hr ▸ rfl
  · simp
  · rfl
  · intro rest
    simp only [runServers, hps]

/-- A one-register test server used to instantiate the theorems. -/
def srvW : Server :=
  { name := "S", ip := "h", port := 1, unit := 1,
    registers := [{ name := "R", address := 10, count := 2,
                    dataType := "uint32", units := "A", conv := none }] }

/-- A world in which no connection ever succeeds. -/
def wNoConn : World :=
  { connectOk := fun _ => false, readResult := fun _ _ => .ok [0, 0] }

/-- C3 witness: the unreachable-server turn at a concrete input. -/
theorem C3_connection_failure_witness :
    ∃ rid t row db1,
      processServer wNoConn 0 srvW emptyDB none =
        .ok ([Event.insertRow srvW.name rid, Event.printErr (connectErrMsg srvW),
              Event.setTimestamp srvW.name rid t], db1, none)
      ∧ db1.rows = emptyDB.rows ++ [row]
      ∧ row.table = srvW.name ∧ row.id = rid ∧ row.timestamp = some t
      ∧ (∀ c ∈ row.cells, c.2 = none)
      ∧ row.cells.map (fun p => p.1) = srvW.registers.map (fun r => r.name)
      ∧ ([Event.insertRow srvW.name rid, Event.printErr (connectErrMsg srvW),
          Event.setTimestamp srvW.name rid t].filter isReadAttempt) = []
      ∧ (∀ rest, runServers wNoConn 0 (srvW :: rest) emptyDB none =
          match runServers wNoConn (0 + 1) rest db1 none with
          | .error e => .error e
          | .ok (evs2, db2, vv2) =>
              .ok ([Event.insertRow srvW.name rid, Event.printErr (connectErrMsg srvW),
                    Event.setTimestamp srvW.name rid t] ++ evs2, db2, vv2)) :=
  C3_connection_failure wNoConn 0 srvW emptyDB none rfl (by decide)

/-
Rounding facts and the per-register case analysis.
-/

/-- Rounding an integer changes nothing. -/
lemma roundHalfEven_intCast (n : ℤ) : roundHalfEven (n : ℚ) = n := by
  unfold roundHalfEven
  norm_num

/-- Rounding to 3 decimals is idempotent. -/
lemma round3_idem (q : ℚ) : round3 (round3 q) = round3 q := by
  unfold round3
  rw [div_mul_cancel₀ _ (by norm_num : (1000 : ℚ) ≠ 0), roundHalfEven_intCast]

/-- Full case analysis of one register-loop iteration: it either hits
one of the two failure shapes — emitting the read attempt, the matching
error message and a timestamp write, and leaving the value variable
untouched — or succeeds, emitting the read attempt, the value print and
a cell patch with a 3-decimal-rounded value, which is the
decode-convert-round value whenever the decode dispatch assigned one. -/
lemma processRegister_cases (w : World) (si : Nat) (s : Server) (rid ri : Nat)
    (r : Register) (db : DB) (vv : Option ℚ) (evs0 : List Event) (db0 : DB)
    (vv0 : Option ℚ)
    (h : processRegister w si s rid ri r db vv = .ok (evs0, db0, vv0)) :
    (∃ msg, failMsg (w.readResult si ri) s r = some msg
      ∧ evs0 = [Event.readAttempt s.name r.name r.address r.count s.unit,
                Event.printErr msg, Event.setTimestamp s.name rid db.clock]
      ∧ db0 = setTimestampDB db s.name rid ∧ vv0 = vv)
    ∨ (∃ v2, evs0 = [Event.readAttempt s.name r.name r.address r.count s.unit,
                     Event.printValue s.name r.name v2 r.units,
                     Event.patch s.name rid r.name v2]
      ∧ db0 = updateCell db s.name rid r.name v2 ∧ vv0 = some v2
      ∧ round3 v2 = v2
      ∧ isFailRead (w.readResult si ri) = false
      ∧ (∀ ws dv, w.readResult si ri = .ok ws →
            decodeDispatch r.dataType ws = .assigned dv →
            v2 = round3 (applyConversion r.conv dv))) := by
  cases hrr : w.readResult si ri with
  | errorResponse =>
      simp only [processRegister, hrr, Except.ok.injEq, Prod.mk.injEq] at h
      obtain ⟨h1, h2, h3⟩ := h
      subst h1; subst h2; subst h3
      left
      exact ⟨readErrMsg s r, by simp [failMsg], rfl, rfl, rfl⟩
  | connClosed =>
      simp only [processRegister, hrr, Except.ok.injEq, Prod.mk.injEq] at h
      obtain ⟨h1, h2, h3⟩ := h
      subst h1; subst h2; subst h3
      left
      exact ⟨closedErrMsg s r, by simp [failMsg], rfl, rfl, rfl⟩
  | ok ws =>
      simp only [processRegister, hrr] at h
      cases hdd : decodeDispatch r.dataType ws with
      | malformed => rw [hdd] at h; exact absurd h (by simp)
      | assigned v =>
          rw [hdd] at h
          simp only [Except.ok.injEq, Prod.mk.injEq] at h
          obtain ⟨h1, h2, h3⟩ := h
          subst h1; subst h2; subst h3
          right
          refine ⟨round3 (applyConversion r.conv v), rfl, rfl, rfl, round3_idem _,
            by simp [isFailRead], ?_⟩
          intro ws2 dv hws hdv
          injection hws with hws2
          subst hws2
          rw [hdd] at hdv
          injection hdv with hdv2
          rw [hdv2]
      | noDispatch =>
          rw [hdd] at h
          cases vv with
          | none => exact absurd h (by simp)
          | some v0 =>
              simp only [Except.ok.injEq, Prod.mk.injEq] at h
              obtain ⟨h1, h2, h3⟩ := h
              subst h1; subst h2; subst h3
              right
              refine ⟨round3 (applyConversion r.conv v0), rfl, rfl, rfl, round3_idem _,
                by simp [isFailRead], ?_⟩
              intro ws2 dv hws hdv
              injection hws with hws2
              subst hws2
              rw [hdd] at hdv
              cases hdv

/-
Register-loop inductions over the event trace.
-/

/-- Destructuring of one successful register-loop step followed by the
rest of the loop. -/
lemma processRegisters_cons (w : World) (si : Nat) (s : Server) (rid ri : Nat)
    (r : Register) (rest : List Register) (db : DB) (vv : Option ℚ)
    (evs : List Event) (db1 : DB) (vv1 : Option ℚ)
    (h : processRegisters w si s rid ri (r :: rest) db vv = .ok (evs, db1, vv1)) :
    ∃ evs0 db0 vv0 evs2,
      processRegister w si s rid ri r db vv = .ok (evs0, db0, vv0)
      ∧ processRegisters w si s rid (ri + 1) rest db0 vv0 = .ok (evs2, db1, vv1)
      ∧ evs = evs0 ++ evs2 := by
  simp only [processRegisters] at h
  cases hpr : processRegister w si s rid ri r db vv with
  | error e => rw [hpr] at h; simp at h
  | ok t =>
      obtain ⟨evs0, db0, vv0⟩ := t
      rw [hpr] at h
      simp only at h
      cases hrest : processRegisters w si s rid (ri + 1) rest db0 vv0 with
      | error e => rw [hrest] at h; simp at h
      | ok t2 =>
          obtain ⟨evs2, db2, vv2⟩ := t2
          rw [hrest] at h
          simp only [Except.ok.injEq, Prod.mk.injEq] at h
          obtain ⟨h1, h2, h3⟩ := h
          subst h1; subst h2; subst h3
          exact ⟨evs0, db0, vv0, evs2, rfl, hrest, rfl⟩

/-- The empty register loop does nothing. -/
lemma processRegisters_nil (w : World) (si : Nat) (s : Server) (rid ri : Nat)
    (db : DB) (vv : Option ℚ) :
    processRegisters w si s rid ri [] db vv = .ok ([], db, vv) := rfl

/-- A read outcome carrying an error message is a failing read. -/
lemma isFailRead_of_failMsg (rr : ReadResult) (s : Server) (r : Register)
    (msg : String) (h : failMsg rr s r = some msg) : isFailRead rr = true := by
  cases rr <;> simp [failMsg, isFailRead] at h ⊢

/-- The register loop writes the timestamp exactly once per failing
read: the error branches of the source call update_timestamp, the
success branch does not. -/
lemma processRegisters_tsCount (w : World) (si : Nat) (s : Server) (rid : Nat) :
    ∀ (regs : List Register) (ri : Nat) (db : DB) (vv : Option ℚ)
      (evs : List Event) (db1 : DB) (vv1 : Option ℚ),
      processRegisters w si s rid ri regs db vv = .ok (evs, db1, vv1) →
      evs.countP isSetTimestamp = failCount w si ri regs := by
  intro regs
  induction regs with
  | nil =>
      intro ri db vv evs db1 vv1 h
      simp only [processRegisters_nil, Except.ok.injEq, Prod.mk.injEq] at h
      simp [← h.1, failCount]
  | cons r rest ih =>
      intro ri db vv evs db1 vv1 h
      obtain ⟨evs0, db0, vv0, evs2, hpr, hrest, rfl⟩ :=
        processRegisters_cons w si s rid ri r rest db vv _ db1 vv1 h
      rw [List.countP_append]
      have h0 : evs0.countP isSetTimestamp =
          if isFailRead (w.readResult si ri) then 1 else 0 := by
        rcases processRegister_cases w si s rid ri r db vv evs0 db0 vv0 hpr with
          ⟨msg, hm, he, _, _⟩ | ⟨v2, he, _, _, _, hok, _⟩
        · subst he
          rw [isFailRead_of_failMsg _ _ _ _ hm]
          simp [List.countP_cons, isSetTimestamp]
        · subst he
          rw [hok]
          simp [List.countP_cons, isSetTimestamp]
      rw [h0, ih _ _ _ _ _ _ hrest]
      simp only [failCount]

/-- The register loop attempts every register, in declared order: one
read attempt per register, success or failure. -/
lemma processRegisters_reads (w : World) (si : Nat) (s : Server) (rid : Nat) :
    ∀ (regs : List Register) (ri : Nat) (db : DB) (vv : Option ℚ)
      (evs : List Event) (db1 : DB) (vv1 : Option ℚ),
      processRegisters w si s rid ri regs db vv = .ok (evs, db1, vv1) →
      evs.filter isReadAttempt = expectedReads s regs := by
  intro regs
  induction regs with
  | nil =>
      intro ri db vv evs db1 vv1 h
      simp only [processRegisters_nil, Except.ok.injEq, Prod.mk.injEq] at h
      simp [← h.1, expectedReads]
  | cons r rest ih =>
      intro ri db vv evs db1 vv1 h
      obtain ⟨evs0, db0, vv0, evs2, hpr, hrest, rfl⟩ :=
        processRegisters_cons w si s rid ri r rest db vv _ db1 vv1 h
      rw [List.filter_append]
      have h0 : evs0.filter isReadAttempt =
          [Event.readAttempt s.name r.name r.address r.count s.unit] := by
        rcases processRegister_cases w si s rid ri r db vv evs0 db0 vv0 hpr with
          ⟨msg, _, he, _, _⟩ | ⟨v2, he, _, _, _, _, _⟩ <;>
          subst he <;> simp [List.filter, isReadAttempt]
      rw [h0, ih _ _ _ _ _ _ hrest]
      simp [expectedReads]

/-
C1: when in a server's turn the timestamp is written.
-/

/-- A two-register test server. -/
def srvW2 : Server :=
  { name := "S", ip := "h", port := 1, unit := 1,
    registers := [{ name := "R", address := 10, count := 2,
                    dataType := "uint32", units := "A", conv := none },
                  { name := "R2", address := 11, count := 2,
                    dataType := "uint32", units := "A", conv := none }] }

/-- A world whose connections succeed, whose first register read returns
an error response, and whose other reads succeed. -/
def wFailFirst : World :=
  { connectOk := fun _ => true,
    readResult := fun _ ri => if ri = 0 then .errorResponse else .ok [0, 5] }

/-- The trace of the cycle over srvW2 in wFailFirst. -/
def c1trace : List Event :=
  ((runCycle wFailFirst [srvW2] emptyDB).toOption.getD ([], emptyDB)).1

/-- C1 counterexample: with one server whose first register read fails
and whose second succeeds, the cycle writes the Poll Record's timestamp
twice, and one of the writes happens between the two register read
attempts — before the second attempt — refuting that the timestamp is
written exactly once at the end of the turn and never between attempts. -/
theorem C1_counterexample :
    c1trace.countP isSetTimestamp = 2
    ∧ c1trace[3]? = some (Event.setTimestamp "S" 1 0)
    ∧ c1trace[4]? = some (Event.readAttempt "S" "R2" 11 2 1) := by
  decide

/-- C1 amended: in every completed server turn the timestamp is written
once per failed register read plus once at the end of the turn (so
exactly once when either the connection fails or every read succeeds),
and the final write comes after every read attempt: no read attempt and
no further timestamp write follows it. -/
theorem C1_amended_timestamp_writes (w : World) (si : Nat) (s : Server) (db : DB)
    (vv : Option ℚ) (evs : List Event) (db1 : DB) (vv1 : Option ℚ)
    (h : processServer w si s db vv = .ok (evs, db1, vv1)) :
    evs.countP isSetTimestamp =
      (if w.connectOk si then failCount w si 0 s.registers + 1 else 1)
    ∧ ∃ pre rid t tail, evs = pre ++ Event.setTimestamp s.name rid t :: tail
        ∧ tail.countP isReadAttempt = 0 ∧ tail.countP isSetTimestamp = 0 := by
  cases hconn : w.connectOk si with
  | false =>
      simp only [processServer, hconn, Bool.false_eq_true, if_false,
        Except.ok.injEq, Prod.mk.injEq] at h
      obtain ⟨h1, _, _⟩ := h
      subst h1
      refine ⟨by simp [List.countP_cons, isSetTimestamp], ?_⟩
      exact ⟨[Event.insertRow s.name (insertNullRow db s).2,
              Event.printErr (connectErrMsg s)],
             (insertNullRow db s).2, (insertNullRow db s).1.clock, [],
             by simp, rfl, rfl⟩
  | true =>
      simp only [processServer, hconn, if_true] at h
      cases hpr : processRegisters w si s (insertNullRow db s).2 0 s.registers
          (insertNullRow db s).1 vv with
      | error e => rw [hpr] at h; simp at h
      | ok t =>
          obtain ⟨evsR, dbR, vvR⟩ := t
          rw [hpr] at h
          simp only [Except.ok.injEq, Prod.mk.injEq] at h
          obtain ⟨h1, _, _⟩ := h
          subst h1
          constructor
          · have hc := processRegisters_tsCount w si s _ _ _ _ _ _ _ _ hpr
            simp [List.countP_cons, List.countP_append, hc, isSetTimestamp]
          · refine ⟨Event.insertRow s.name (insertNullRow db s).2 :: evsR,
              (insertNullRow db s).2, dbR.clock, [Event.closeConn s.name], by simp, rfl, rfl⟩

/-- The result of the turn of srvW2 in wFailFirst. -/
def c1serverRun : List Event × DB × Option ℚ :=
  ((processServer wFailFirst 0 srvW2 emptyDB none).toOption).getD ([], emptyDB, none)

/-- C1 amended, witness: the amended count at a concrete turn with one
failing and one succeeding register. -/
theorem C1_amended_timestamp_writes_witness :
    processServer wFailFirst 0 srvW2 emptyDB none =
      .ok (c1serverRun.1, c1serverRun.2.1, c1serverRun.2.2)
    ∧ c1serverRun.1.countP isSetTimestamp =
      (if wFailFirst.connectOk 0 then failCount wFailFirst 0 0 srvW2.registers + 1 else 1)
    ∧ ∃ pre rid t tail,
        c1serverRun.1 = pre ++ Event.setTimestamp srvW2.name rid t :: tail
        ∧ tail.countP isReadAttempt = 0 ∧ tail.countP isSetTimestamp = 0 :=
  ⟨rfl,
   (C1_amended_timestamp_writes wFailFirst 0 srvW2 emptyDB none
      c1serverRun.1 c1serverRun.2.1 c1serverRun.2.2 rfl).1,
   (C1_amended_timestamp_writes wFailFirst 0 srvW2 emptyDB none
      c1serverRun.1 c1serverRun.2.1 c1serverRun.2.2 rfl).2⟩

/-
Cell-level helpers for the UPDATE statements.
-/

/-- Setting a cell leaves the column names unchanged. -/
lemma keys_map_set (l : List (String × Option ℚ)) (c : String) (v : Option ℚ) :
    (l.map (fun p => if p.1 = c then (p.1, v) else p)).map (fun p => p.1) =
      l.map (fun p => p.1) := by
  induction l with
  | nil => rfl
  | cons p t ih =>
      by_cases hp : p.1 = c <;> simp [hp, ih]

/-- Looking up the cell just set finds the new value, provided the
column exists. -/
lemma find_map_set_same (l : List (String × Option ℚ)) (c : String) (v : Option ℚ)
    (h : c ∈ l.map (fun p => p.1)) :
    ((l.map (fun p => if p.1 = c then (p.1, v) else p)).find?
        (fun p => p.1 = c)).map (fun p => p.2) = some v := by
  induction l with
  | nil => simp at h
  | cons p t ih =>
      by_cases hp : p.1 = c
      · rw [List.map_cons, if_pos hp, List.find?_cons_of_pos _ (by simpa using hp)]
        rfl
      · rw [List.map_cons, if_neg hp, List.find?_cons_of_neg _ (by simpa using hp)]
        apply ih
        simp only [List.map_cons, List.mem_cons] at h
        rcases h with h | h
        · exact absurd h.symm hp
        · exact h

/-- Looking up a different column is unaffected by setting a cell. -/
lemma find_map_set_other (l : List (String × Option ℚ)) (c c2 : String) (v : Option ℚ)
    (h : c2 ≠ c) :
    ((l.map (fun p => if p.1 = c then (p.1, v) else p)).find?
        (fun p => p.1 = c2)).map (fun p => p.2) =
      (l.find? (fun p => p.1 = c2)).map (fun p => p.2) := by
  induction l with
  | nil => rfl
  | cons p t ih =>
      by_cases hq : p.1 = c2
      · have hpc : ¬p.1 = c := fun hp => h (by rw [← hq, hp])
        rw [List.map_cons, if_neg hpc,
            List.find?_cons_of_pos _ (by simpa using hq),
            List.find?_cons_of_pos _ (by simpa using hq)]
      · by_cases hp : p.1 = c
        · rw [List.map_cons, if_pos hp,
              List.find?_cons_of_neg _ (by simpa using hq),
              List.find?_cons_of_neg _ (by simpa using hq)]
          exact ih
        · rw [List.map_cons, if_neg hp,
              List.find?_cons_of_neg _ (by simpa using hq),
              List.find?_cons_of_neg _ (by simpa using hq)]
          exact ih

/-- getCell after setCell, same column. -/
lemma getCell_setCell_same (row : Row) (c : String) (v : Option ℚ)
    (h : c ∈ row.cells.map (fun p => p.1)) :
    getCell (setCell row c v) c = some v := by
  simpa [getCell, setCell] using find_map_set_same row.cells c v h

/-- getCell after setCell, other column. -/
lemma getCell_setCell_other (row : Row) (c c2 : String) (v : Option ℚ)
    (h : c2 ≠ c) :
    getCell (setCell row c v) c2 = getCell row c2 := by
  simpa [getCell, setCell] using find_map_set_other row.cells c c2 v h

/-- In a list of cells that are all null, any existing column reads
null. -/
lemma find_all_none (l : List (String × Option ℚ)) (c : String)
    (hnull : ∀ p ∈ l, p.2 = none) (h : c ∈ l.map (fun p => p.1)) :
    (l.find? (fun p => p.1 = c)).map (fun p => p.2) = some none := by
  induction l with
  | nil => simp at h
  | cons p t ih =>
      by_cases hp : p.1 = c
      · rw [List.find?_cons_of_pos _ (by simpa using hp)]
        simp [hnull p (List.mem_cons_self _ _)]
      · rw [List.find?_cons_of_neg _ (by simpa using hp)]
        refine ih (fun q hq => hnull q (List.mem_cons_of_mem _ hq)) ?_
        simp only [List.map_cons, List.mem_cons] at h
        rcases h with h | h
        · exact absurd h.symm hp
        · exact h

/-- The map underlying both UPDATE statements, on a database whose rows
split as A, the unique matching row, B: only the matching row changes. -/
lemma mapWhere_shape (A B : List Row) (row : Row) (t : String) (rid : Nat)
    (f : Row → Row)
    (hA : ∀ x ∈ A, ¬(x.table = t ∧ x.id = rid))
    (hB : ∀ x ∈ B, ¬(x.table = t ∧ x.id = rid))
    (hrow : row.table = t ∧ row.id = rid) :
    (A ++ row :: B).map (fun x => if x.table = t ∧ x.id = rid then f x else x) =
      A ++ f row :: B := by
  rw [List.map_append, List.map_cons, if_pos hrow,
      map_id_of_mem A _ (fun x hx => if_neg (hA x hx)),
      map_id_of_mem B _ (fun x hx => if_neg (hB x hx))]

/-- An element found by position is a member. -/
lemma mem_of_getElem_opt {α : Type} :
    ∀ (l : List α) (j : Nat) (a : α), l[j]? = some a → a ∈ l := by
  intro l
  induction l with
  | nil => intro j a h; simp at h
  | cons x t ih =>
      intro j a h
      cases j with
      | zero =>
          simp only [List.getElem?_cons_zero, Option.some.injEq] at h
          subst h
          exact List.mem_cons_self _ _
      | succ j =>
          simp only [List.getElem?_cons_succ] at h
          exact List.mem_cons_of_mem _ (ih j a h)

/-- getCell of a row whose cells are all null. -/
lemma getCell_nullRow (row : Row) (c : String)
    (hnull : ∀ p ∈ row.cells, p.2 = none) (h : c ∈ row.cells.map (fun p => p.1)) :
    getCell row c = some none := by
  simpa [getCell] using find_all_none row.cells c hnull h

/-- A failing read produces no stored outcome. -/
lemma outcomeAt_none_of_fail (w : World) (si ri : Nat) (r : Register)
    (h : isFailRead (w.readResult si ri) = true) :
    outcomeAt w si ri r = none := by
  unfold outcomeAt
  cases hrr : w.readResult si ri with
  | errorResponse => rfl
  | connClosed => rfl
  | ok ws => rw [hrr] at h; simp [isFailRead] at h

/-- The three declared wire types never fall through the dispatch. -/
lemma dispatch_ne_noDispatch (dt : String) (ws : List Nat)
    (h : dt ∈ ["float32", "uint32", "int32"]) :
    decodeDispatch dt ws ≠ DecodeOutcome.noDispatch := by
  simp only [List.mem_cons, List.not_mem_nil, or_false] at h
  rcases h with h | h | h <;> subst h <;>
    simp only [decodeDispatch, String.reduceEq, reduceIte] <;>
    cases hw : decodeWords32 ws <;> simp

/-- A malformed payload aborts the register iteration with an uncaught
error. -/
lemma processRegister_malformed (w : World) (si : Nat) (s : Server) (rid ri : Nat)
    (r : Register) (db : DB) (vv : Option ℚ) (ws : List Nat)
    (hrr : w.readResult si ri = .ok ws)
    (hdd : decodeDispatch r.dataType ws = .malformed) :
    processRegister w si s rid ri r db vv = .error () := by
  simp [processRegister, hrr, hdd]

/-- Master lemma of the register loop: on a database whose rows split as
A, the unique row matching the server's table and the cycle's row id,
and B, the loop leaves A and B untouched and leaves the target row with
the same columns, where every column outside the processed registers is
unchanged, and the column of each processed register holds the
decode-convert-round value of its read when that succeeded and its
previous value when the read failed. -/
lemma processRegisters_master (w : World) (si : Nat) (s : Server) (rid : Nat) :
    ∀ (regs : List Register) (ri : Nat) (A B : List Row) (row : Row) (ck : Nat)
      (vv : Option ℚ) (evs : List Event) (db1 : DB) (vv1 : Option ℚ),
      processRegisters w si s rid ri regs { rows := A ++ row :: B, clock := ck } vv
        = .ok (evs, db1, vv1) →
      (∀ x ∈ A, ¬(x.table = s.name ∧ x.id = rid)) →
      (∀ x ∈ B, ¬(x.table = s.name ∧ x.id = rid)) →
      row.table = s.name → row.id = rid →
      (∀ r ∈ regs, r.dataType ∈ ["float32", "uint32", "int32"]) →
      (regs.map (fun r => r.name)).Nodup →
      (∀ r ∈ regs, r.name ∈ row.cells.map (fun p => p.1)) →
      ∃ row1 ck1,
        db1 = { rows := A ++ row1 :: B, clock := ck1 }
        ∧ row1.table = s.name ∧ row1.id = rid
        ∧ row1.cells.map (fun p => p.1) = row.cells.map (fun p => p.1)
        ∧ (∀ c, c ∉ regs.map (fun r => r.name) → getCell row1 c = getCell row c)
        ∧ (∀ j r, regs[j]? = some r →
            getCell row1 r.name =
              match outcomeAt w si (ri + j) r with
              | some v => some (some v)
              | none => getCell row r.name) := by
  intro regs
  induction regs with
  | nil =>
      intro ri A B row ck vv evs db1 vv1 h hA hB ht hi htypes hnd hcols
      simp only [processRegisters_nil, Except.ok.injEq, Prod.mk.injEq] at h
      exact ⟨row, ck, h.2.1.symm, ht, hi, rfl, fun c _ => rfl,
        by intro j rr hj; simp at hj⟩
  | cons r rest ih =>
      intro ri A B row ck vv evs db1 vv1 h hA hB ht hi htypes hnd hcols
      obtain ⟨evs0, db0, vv0, evs2, hpr, hrest, rfl⟩ :=
        processRegisters_cons w si s rid ri r rest _ vv _ db1 vv1 h
      have hndr : r.name ∉ rest.map (fun r => r.name)
          ∧ (rest.map (fun r => r.name)).Nodup :=
        List.nodup_cons.mp (by simpa using hnd)
      rcases processRegister_cases w si s rid ri r _ vv evs0 db0 vv0 hpr with
        ⟨msg, hm, he, hdb, hvv⟩ | ⟨v2, he, hdb, hvv, hrnd, hok, himp⟩
      · subst hdb
        have hshape : setTimestampDB { rows := A ++ row :: B, clock := ck } s.name rid =
            { rows := A ++ { row with timestamp := some ck } :: B, clock := ck + 1 } := by
          simp only [setTimestampDB]
          rw [mapWhere_shape A B row s.name rid _ hA hB ⟨ht, hi⟩]
        rw [hshape] at hrest
        obtain ⟨row1, ck1, hdb1, ht1, hi1, hkeys, hnotin, hcells⟩ :=
          ih (ri + 1) A B { row with timestamp := some ck } (ck + 1) vv0 _ db1 vv1
            hrest hA hB ht hi (fun x hx => htypes x (List.mem_cons_of_mem _ hx))
            hndr.2 (fun x hx => hcols x (List.mem_cons_of_mem _ hx))
        refine ⟨row1, ck1, hdb1, ht1, hi1, hkeys, ?_, ?_⟩
        · intro c hc
          simp only [List.map_cons, List.mem_cons, not_or] at hc
          exact hnotin c hc.2
        · intro j rr hj
          rcases j with _ | j
          · simp only [List.getElem?_cons_zero, Option.some.injEq] at hj
            subst hj
            rw [Nat.add_zero,
              outcomeAt_none_of_fail w si ri r (isFailRead_of_failMsg _ _ _ _ hm)]
            exact hnotin r.name hndr.1
          · simp only [List.getElem?_cons_succ] at hj
            have hc := hcells j rr hj
            rw [show ri + (j + 1) = ri + 1 + j by omega]
            exact hc
      · subst hdb
        have hshape : updateCell { rows := A ++ row :: B, clock := ck } s.name rid
              r.name v2 =
            { rows := A ++ setCell row r.name (some v2) :: B, clock := ck } := by
          simp only [updateCell]
          rw [mapWhere_shape A B row s.name rid _ hA hB ⟨ht, hi⟩]
        rw [hshape] at hrest
        subst hvv
        have hkeys0 : (setCell row r.name (some v2)).cells.map (fun p => p.1) =
            row.cells.map (fun p => p.1) := by
          simpa [setCell] using keys_map_set row.cells r.name (some v2)
        obtain ⟨row1, ck1, hdb1, ht1, hi1, hkeys, hnotin, hcells⟩ :=
          ih (ri + 1) A B (setCell row r.name (some v2)) ck (some v2) _ db1 vv1
            hrest hA hB ht hi (fun x hx => htypes x (List.mem_cons_of_mem _ hx))
            hndr.2 (fun x hx => hkeys0 ▸ hcols x (List.mem_cons_of_mem _ hx))
        refine ⟨row1, ck1, hdb1, ht1, hi1, hkeys.trans hkeys0, ?_, ?_⟩
        · intro c hc
          simp only [List.map_cons, List.mem_cons, not_or] at hc
          rw [hnotin c hc.2, getCell_setCell_other row r.name c _ hc.1]
        · intro j rr hj
          rcases j with _ | j
          · simp only [List.getElem?_cons_zero, Option.some.injEq] at hj
            subst hj
            have hout : outcomeAt w si ri r = some v2 := by
              cases hrr : w.readResult si ri with
              | errorResponse => rw [hrr] at hok; simp [isFailRead] at hok
              | connClosed => rw [hrr] at hok; simp [isFailRead] at hok
              | ok ws =>
                  cases hdd : decodeDispatch r.dataType ws with
                  | noDispatch =>
                      exact absurd hdd (dispatch_ne_noDispatch _ _
                        (htypes r (List.mem_cons_self _ _)))
                  | malformed =>
                      rw [processRegister_malformed w si s rid ri r _ vv ws hrr hdd]
                        at hpr
                      simp at hpr
                  | assigned dv =>
                      have hv2 := himp ws dv hrr hdd
                      simp [outcomeAt, hrr, hdd, hv2]
            rw [Nat.add_zero, hout, hnotin r.name hndr.1,
              getCell_setCell_same row r.name (some v2)
                (hcols r (List.mem_cons_self _ _))]
          · simp only [List.getElem?_cons_succ] at hj
            have hmem : rr.name ∈ rest.map (fun r => r.name) :=
              List.mem_map_of_mem _ (mem_of_getElem_opt rest j rr hj)
            have hne : rr.name ≠ r.name := fun he2 => hndr.1 (he2 ▸ hmem)
            have hc := hcells j rr hj
            rw [getCell_setCell_other row r.name rr.name _ hne] at hc
            rw [show ri + (j + 1) = ri + 1 + j by omega]
            exact hc

/-- Characterization of one completed server turn: the database gains
exactly one new row, in the server's table, with the id assigned at its
creation, a non-null timestamp, one column per register in declared
order, and each register column holding the decode-convert-round value
of a successful read, and null otherwise (always null when the
connection failed). -/
lemma processServer_ok (w : World) (si : Nat) (s : Server) (db : DB) (vv : Option ℚ)
    (evs : List Event) (db1 : DB) (vv1 : Option ℚ)
    (h : processServer w si s db vv = .ok (evs, db1, vv1))
    (hwf : WFdb db)
    (htypes : ∀ r ∈ s.registers, r.dataType ∈ ["float32", "uint32", "int32"])
    (hnd : (s.registers.map (fun r => r.name)).Nodup) :
    ∃ row1,
      db1.rows = db.rows ++ [row1]
      ∧ row1.table = s.name
      ∧ row1.id = (tableRows db s.name).length + 1
      ∧ row1.timestamp.isSome = true
      ∧ row1.cells.map (fun p => p.1) = s.registers.map (fun r => r.name)
      ∧ (∀ j r, s.registers[j]? = some r →
          getCell row1 r.name =
            some (if w.connectOk si then outcomeAt w si j r else none)) := by
  have hins1 : (insertNullRow db s).1 =
      { rows := db.rows ++
          ({ id := (tableRows db s.name).length + 1, table := s.name,
             timestamp := none,
             cells := s.registers.map (fun r => (r.name, none)) } : Row) :: [],
        clock := db.clock } := by
    simp [insertNullRow]
  have hins2 : (insertNullRow db s).2 = (tableRows db s.name).length + 1 := rfl
  have hnullcells : ∀ p ∈ (s.registers.map (fun r => (r.name, (none : Option ℚ)))),
      p.2 = none := by
    intro p hp
    rcases List.mem_map.mp hp with ⟨r, _, hr⟩
    exact hr ▸ rfl
  cases hconn : w.connectOk si with
  | false =>
      simp only [processServer, hconn, Bool.false_eq_true, if_false,
        Except.ok.injEq, Prod.mk.injEq] at h
      obtain ⟨_, hdb, _⟩ := h
      refine ⟨{ id := (tableRows db s.name).length + 1, table := s.name,
                timestamp := some db.clock,
                cells := s.registers.map (fun r => (r.name, none)) }, ?_, rfl, rfl, rfl,
              by simp, ?_⟩
      · rw [← hdb, hins1, hins2]
        simp only [setTimestampDB]
        rw [mapWhere_shape db.rows [] _ s.name ((tableRows db s.name).length + 1) _
          (fresh_id db s hwf) (by intro x hx; simp at hx) ⟨rfl, rfl⟩]
      · intro j r hj
        have hmem : r ∈ s.registers := mem_of_getElem_opt _ _ _ hj
        exact getCell_nullRow _ _ hnullcells (by
          simpa using List.mem_map_of_mem (fun r => r.name) hmem)
  | true =>
      simp only [processServer, hconn, if_true] at h
      cases hpr : processRegisters w si s (insertNullRow db s).2 0 s.registers
          (insertNullRow db s).1 vv with
      | error e => rw [hpr] at h; simp at h
      | ok t =>
          obtain ⟨evsR, dbR, vvR⟩ := t
          rw [hpr] at h
          simp only [Except.ok.injEq, Prod.mk.injEq] at h
          obtain ⟨_, hdb, _⟩ := h
          rw [hins1, hins2] at hpr
          obtain ⟨row1, ck1, hdbR, ht1, hi1, hkeys, _, hcells⟩ :=
            processRegisters_master w si s ((tableRows db s.name).length + 1)
              s.registers 0 db.rows [] _ db.clock vv evsR dbR vvR hpr
              (fresh_id db s hwf) (by intro x hx; simp at hx) rfl rfl htypes hnd
              (by
                intro r hr
                simpa using List.mem_map_of_mem (fun r => r.name) hr)
          have hkeys2 : row1.cells.map (fun p => p.1) =
              s.registers.map (fun r => r.name) := by
            rw [hkeys]
            simp
          refine ⟨{ row1 with timestamp := some ck1 }, ?_, ht1, hi1, rfl,
            hkeys2, ?_⟩
          · rw [← hdb, hins2, hdbR]
            simp only [setTimestampDB]
            rw [mapWhere_shape db.rows [] row1 s.name ((tableRows db s.name).length + 1) _
              (fresh_id db s hwf) (by intro x hx; simp at hx) ⟨ht1, hi1⟩]
          · intro j r hj
            have hc := hcells j r hj
            rw [Nat.zero_add] at hc
            have hmem : r ∈ s.registers := mem_of_getElem_opt _ _ _ hj
            have hnull : getCell ({ id := (tableRows db s.name).length + 1,
                                    table := s.name, timestamp := none,
                                    cells := s.registers.map (fun r => (r.name, none))
                                  } : Row) r.name = some none :=
              getCell_nullRow _ _ hnullcells (by
                simpa using List.mem_map_of_mem (fun r => r.name) hmem)
            rw [hnull] at hc
            show getCell row1 r.name = _
            cases hoc : outcomeAt w si j r with
            | none => rw [hoc] at hc; simpa using hc
            | some v => rw [hoc] at hc; simpa using hc

/-
Cycle-level inductions: well-formedness preservation and the server
loop.
-/

/-- Appending the next id extends an initial segment of ids. -/
lemma range'_snoc : ∀ (n s : Nat), List.range' s (n + 1) = List.range' s n ++ [s + n] := by
  intro n
  induction n with
  | zero => intro s; simp [List.range']
  | succ n ih =>
      intro s
      have he : s + 1 + n = s + (n + 1) := by omega
      rw [List.range'_succ, ih (s + 1), he, List.range'_succ, List.cons_append]

/-- Well-formedness of the ids of a table, stated for every table name:
tables with no rows hold the empty id segment. -/
lemma WFdb_total (db : DB) (hwf : WFdb db) (t : String) :
    (tableRows db t).map (fun row => row.id) =
      List.range' 1 (tableRows db t).length := by
  by_cases ht : t ∈ db.rows.map (fun row => row.table)
  · exact hwf t ht
  · have hnil : tableRows db t = [] := by
      refine List.filter_eq_nil_iff.mpr ?_
      intro x hx
      simp only [decide_eq_true_eq]
      intro hxt
      exact ht (hxt ▸ List.mem_map_of_mem _ hx)
    rw [hnil]
    rfl

/-- Appending one row with the next id of its table preserves
well-formedness. -/
lemma WFdb_snoc (db db1 : DB) (row1 : Row) (h : db1.rows = db.rows ++ [row1])
    (hwf : WFdb db) (hid : row1.id = (tableRows db row1.table).length + 1) :
    WFdb db1 := by
  intro t _
  have hsplit : tableRows db1 t =
      tableRows db t ++ (if row1.table = t then [row1] else []) := by
    unfold tableRows
    rw [h, List.filter_append]
    congr 1
    by_cases hrt : row1.table = t
    · simp [hrt]
    · simp [hrt]
  by_cases hrt : row1.table = t
  · rw [hsplit, if_pos hrt, List.map_append, WFdb_total db hwf t,
      List.length_append, List.map_cons, List.map_nil, List.length_cons,
      List.length_nil, range'_snoc]
    rw [hrt] at hid
    rw [hid]
    congr 2
    omega
  · rw [hsplit, if_neg hrt, List.append_nil, WFdb_total db hwf t]

/-- Destructuring of one server turn followed by the rest of the server
loop. -/
lemma runServers_cons (w : World) (si : Nat) (s : Server) (rest : List Server)
    (db : DB) (vv : Option ℚ) (evs : List Event) (db1 : DB) (vv1 : Option ℚ)
    (h : runServers w si (s :: rest) db vv = .ok (evs, db1, vv1)) :
    ∃ evs0 db0 vv0 evs2,
      processServer w si s db vv = .ok (evs0, db0, vv0)
      ∧ runServers w (si + 1) rest db0 vv0 = .ok (evs2, db1, vv1)
      ∧ evs = evs0 ++ evs2 := by
  simp only [runServers] at h
  cases hps : processServer w si s db vv with
  | error e => rw [hps] at h; simp at h
  | ok t =>
      obtain ⟨evs0, db0, vv0⟩ := t
      rw [hps] at h
      simp only at h
      cases hrest : runServers w (si + 1) rest db0 vv0 with
      | error e => rw [hrest] at h; simp at h
      | ok t2 =>
          obtain ⟨evs2, db2, vv2⟩ := t2
          rw [hrest] at h
          simp only [Except.ok.injEq, Prod.mk.injEq] at h
          obtain ⟨h1, h2, h3⟩ := h
          subst h1; subst h2; subst h3
          exact ⟨evs0, db0, vv0, evs2, rfl, hrest, rfl⟩

/-- One server turn attempts exactly its declared registers in order
when connected and nothing when the connection fails. -/
lemma processServer_reads (w : World) (si : Nat) (s : Server) (db : DB)
    (vv : Option ℚ) (evs : List Event) (db1 : DB) (vv1 : Option ℚ)
    (h : processServer w si s db vv = .ok (evs, db1, vv1)) :
    evs.filter isReadAttempt =
      (if w.connectOk si then expectedReads s s.registers else []) := by
  cases hconn : w.connectOk si with
  | false =>
      simp only [processServer, hconn, Bool.false_eq_true, if_false,
        Except.ok.injEq, Prod.mk.injEq] at h
      obtain ⟨h1, _, _⟩ := h
      subst h1
      simp [List.filter, isReadAttempt]
  | true =>
      simp only [processServer, hconn, if_true] at h
      cases hpr : processRegisters w si s (insertNullRow db s).2 0 s.registers
          (insertNullRow db s).1 vv with
      | error e => rw [hpr] at h; simp at h
      | ok t =>
          obtain ⟨evsR, dbR, vvR⟩ := t
          rw [hpr] at h
          simp only [Except.ok.injEq, Prod.mk.injEq] at h
          obtain ⟨h1, _, _⟩ := h
          subst h1
          have hr := processRegisters_reads w si s _ _ _ _ _ _ _ _ hpr
          simp [List.filter_cons, List.filter_append, hr, isReadAttempt]

/-- The server loop attempts, per reachable server in configured order,
exactly its registers in declared order. -/
lemma runServers_reads (w : World) :
    ∀ (servers : List Server) (si : Nat) (db : DB) (vv : Option ℚ)
      (evs : List Event) (db1 : DB) (vv1 : Option ℚ),
      runServers w si servers db vv = .ok (evs, db1, vv1) →
      evs.filter isReadAttempt = expectedAttempts w si servers := by
  intro servers
  induction servers with
  | nil =>
      intro si db vv evs db1 vv1 h
      simp only [runServers, Except.ok.injEq, Prod.mk.injEq] at h
      simp [← h.1, expectedAttempts]
  | cons s rest ih =>
      intro si db vv evs db1 vv1 h
      obtain ⟨evs0, db0, vv0, evs2, hps, hrest, rfl⟩ :=
        runServers_cons w si s rest db vv _ db1 vv1 h
      rw [List.filter_append,
        processServer_reads w si s db vv evs0 db0 vv0 hps,
        ih _ _ _ _ _ _ hrest]
      rfl

/-- Splitting a table's rows after one row is appended to the
database. -/
lemma tableRows_snoc (db db0 : DB) (row1 : Row) (h : db0.rows = db.rows ++ [row1])
    (t : String) :
    tableRows db0 t = tableRows db t ++ (if row1.table = t then [row1] else []) := by
  unfold tableRows
  rw [h, List.filter_append]
  congr 1
  by_cases hrt : row1.table = t
  · simp [hrt]
  · simp [hrt]

/-- The server loop appends exactly one row per server, each with a
non-null timestamp, and preserves well-formedness of the database. -/
lemma runServers_master (w : World) :
    ∀ (servers : List Server) (si : Nat) (db : DB) (vv : Option ℚ)
      (evs : List Event) (db1 : DB) (vv1 : Option ℚ),
      runServers w si servers db vv = .ok (evs, db1, vv1) →
      WFdb db →
      (∀ s ∈ servers,
        (∀ r ∈ s.registers, r.dataType ∈ ["float32", "uint32", "int32"])
        ∧ (s.registers.map (fun r => r.name)).Nodup) →
      ∃ newRows,
        db1.rows = db.rows ++ newRows
        ∧ newRows.length = servers.length
        ∧ (∀ row ∈ newRows, row.timestamp.isSome = true)
        ∧ WFdb db1
        ∧ (∀ t, (tableRows db1 t).length =
            (tableRows db t).length + servers.countP (fun s => s.name = t)) := by
  intro servers
  induction servers with
  | nil =>
      intro si db vv evs db1 vv1 h hwf hcfg
      simp only [runServers, Except.ok.injEq, Prod.mk.injEq] at h
      obtain ⟨_, h2, _⟩ := h
      subst h2
      exact ⟨[], by simp, rfl, by simp, hwf, fun t => by simp⟩
  | cons s rest ih =>
      intro si db vv evs db1 vv1 h hwf hcfg
      obtain ⟨evs0, db0, vv0, evs2, hps, hrest, rfl⟩ :=
        runServers_cons w si s rest db vv _ db1 vv1 h
      obtain ⟨row1, hrows, ht1, hi1, hts1, _, _⟩ :=
        processServer_ok w si s db vv evs0 db0 vv0 hps hwf
          (hcfg s (List.mem_cons_self _ _)).1 (hcfg s (List.mem_cons_self _ _)).2
      have hwf0 : WFdb db0 := WFdb_snoc db db0 row1 hrows hwf (by rw [ht1]; exact hi1)
      obtain ⟨newRows, hrows2, hlen2, hts2, hwf1, hcnt2⟩ :=
        ih (si + 1) db0 vv0 _ db1 vv1 hrest hwf0
          (fun x hx => hcfg x (List.mem_cons_of_mem _ hx))
      refine ⟨row1 :: newRows, ?_, by simp [hlen2], ?_, hwf1, ?_⟩
      · rw [hrows2, hrows]
        simp
      · intro row hr
        rcases List.mem_cons.mp hr with hcase | hcase
        · exact hcase ▸ hts1
        · exact hts2 row hcase
      · intro t
        have hsp := tableRows_snoc db db0 row1 hrows t
        have hlen0 : (tableRows db0 t).length =
            (tableRows db t).length + (if s.name = t then 1 else 0) := by
          rw [hsp, List.length_append, ht1]
          by_cases hst : s.name = t
          · simp [hst]
          · simp [hst]
        rw [hcnt2 t, hlen0, List.countP_cons]
        by_cases hst : s.name = t
        · simp [hst]
          omega
        · simp [hst]

/-
C7: deterministic sequential polling order.
-/

/-- C7: in every completed cycle, the sequence of register read
attempts is exactly the configured servers in order and, within each
reachable server, its registers in declared order — a function of the
configuration and of which connections succeed only, hence
deterministic. -/
theorem C7_sequential_deterministic (w : World) (servers : List Server) (db : DB)
    (evs : List Event) (db1 : DB)
    (h : runCycle w servers db = .ok (evs, db1)) :
    evs.filter isReadAttempt = expectedAttempts w 0 servers := by
  unfold runCycle at h
  cases hrs : runServers w 0 servers db none with
  | error e => rw [hrs] at h; simp at h
  | ok t =>
      obtain ⟨evs2, db2, vv2⟩ := t
      rw [hrs] at h
      simp only [Except.ok.injEq, Prod.mk.injEq] at h
      obtain ⟨h1, _⟩ := h
      subst h1
      exact runServers_reads w servers 0 db none _ _ _ hrs

/-- The result of the cycle over srvW2 in wFailFirst. -/
def c7run : List Event × DB :=
  ((runCycle wFailFirst [srvW2] emptyDB).toOption).getD ([], emptyDB)

/-- C7 witness: the polling order at a concrete cycle. -/
theorem C7_sequential_deterministic_witness :
    runCycle wFailFirst [srvW2] emptyDB = .ok c7run
    ∧ c7run.1.filter isReadAttempt = expectedAttempts wFailFirst 0 [srvW2] :=
  ⟨rfl, C7_sequential_deterministic wFailFirst [srvW2] emptyDB c7run.1 c7run.2 rfl⟩

/-
C2: exactly one timestamped Poll Record per server per cycle.
-/

/-- C2: in a completed cycle over the configured servers, starting from
an empty database, exactly one row is created per server and every row
ends with a non-null timestamp; moreover the pending record any server
turn creates starts with a null timestamp and all register cells null,
and the row insertion is the very first event of its server's turn —
before any network attempt. -/
theorem C2_one_record_per_server (w : World) (servers : List Server)
    (evs : List Event) (db1 : DB)
    (h : runCycle w servers emptyDB = .ok (evs, db1))
    (hcfg : ∀ s ∈ servers,
      (∀ r ∈ s.registers, r.dataType ∈ ["float32", "uint32", "int32"])
      ∧ (s.registers.map (fun r => r.name)).Nodup) :
    db1.rows.length = servers.length
    ∧ (∀ row ∈ db1.rows, row.timestamp.isSome = true)
    ∧ (∀ (db0 : DB) (s : Server), ∃ row,
        (insertNullRow db0 s).1.rows = db0.rows ++ [row]
        ∧ row.timestamp = none ∧ (∀ c ∈ row.cells, c.2 = none))
    ∧ (∀ (si : Nat) (s : Server) (db0 : DB) (vv : Option ℚ) evs0 db0' vv0',
        processServer w si s db0 vv = .ok (evs0, db0', vv0') →
        ∃ rid tail2, evs0 = Event.insertRow s.name rid :: tail2) := by
  have hwfe : WFdb emptyDB := by intro t ht; simp [emptyDB] at ht
  unfold runCycle at h
  cases hrs : runServers w 0 servers emptyDB none with
  | error e => rw [hrs] at h; simp at h
  | ok t =>
      obtain ⟨evs2, db2, vv2⟩ := t
      rw [hrs] at h
      simp only [Except.ok.injEq, Prod.mk.injEq] at h
      obtain ⟨_, h2⟩ := h
      subst h2
      obtain ⟨newRows, hrows, hlen, hts, _, _⟩ :=
        runServers_master w servers 0 emptyDB none _ db2 vv2 hrs hwfe hcfg
      refine ⟨?_, ?_, ?_, ?_⟩
      · rw [hrows]
        simpa [emptyDB] using hlen
      · intro row hr
        rw [hrows] at hr
        exact hts row (by simpa [emptyDB] using hr)
      · intro db0 s
        refine ⟨{ id := (tableRows db0 s.name).length + 1, table := s.name,
                  timestamp := none,
                  cells := s.registers.map (fun r => (r.name, none)) }, ?_, rfl, ?_⟩
        · simp [insertNullRow]
        · intro c hc
          rcases List.mem_map.mp hc with ⟨r, _, hr⟩
          exact hr ▸ rfl
      · intro si s db0 vv evs0 db0' vv0' hps
        cases hconn : w.connectOk si with
        | false =>
            simp only [processServer, hconn, Bool.false_eq_true, if_false,
              Except.ok.injEq, Prod.mk.injEq] at hps
            exact ⟨(insertNullRow db0 s).2,
              [Event.printErr (connectErrMsg s),
               Event.setTimestamp s.name (insertNullRow db0 s).2
                 (insertNullRow db0 s).1.clock], hps.1.symm⟩
        | true =>
            simp only [processServer, hconn, if_true] at hps
            cases hpr : processRegisters w si s (insertNullRow db0 s).2 0 s.registers
                (insertNullRow db0 s).1 vv with
            | error e => rw [hpr] at hps; simp at hps
            | ok tr =>
                obtain ⟨evsR, dbR, vvR⟩ := tr
                rw [hpr] at hps
                simp only [Except.ok.injEq, Prod.mk.injEq] at hps
                exact ⟨(insertNullRow db0 s).2,
                  evsR ++ [Event.setTimestamp s.name (insertNullRow db0 s).2 dbR.clock,
                           Event.closeConn s.name], hps.1.symm⟩

/-- The result of the cycle over srvW2 in wFailFirst, rows only. -/
def c2run : List Event × DB :=
  ((runCycle wFailFirst [srvW2] emptyDB).toOption).getD ([], emptyDB)

/-- C2 witness: the record invariant at a concrete cycle with one
failing and one succeeding register. -/
theorem C2_one_record_per_server_witness :
    c2run.2.rows.length = [srvW2].length
    ∧ (∀ row ∈ c2run.2.rows, row.timestamp.isSome = true)
    ∧ (∀ (db0 : DB) (s : Server), ∃ row,
        (insertNullRow db0 s).1.rows = db0.rows ++ [row]
        ∧ row.timestamp = none ∧ (∀ c ∈ row.cells, c.2 = none))
    ∧ (∀ (si : Nat) (s : Server) (db0 : DB) (vv : Option ℚ) evs0 db0' vv0',
        processServer wFailFirst si s db0 vv = .ok (evs0, db0', vv0') →
        ∃ rid tail2, evs0 = Event.insertRow s.name rid :: tail2) :=
  C2_one_record_per_server wFailFirst [srvW2] c2run.1 c2run.2 rfl (by decide)

/-
Error reporting, patch values and patch targets of the register loop.
-/

/-- Each failing read's error message is printed: the loop reports every
failure and continues. -/
lemma processRegisters_errMem (w : World) (si : Nat) (s : Server) (rid : Nat) :
    ∀ (regs : List Register) (ri : Nat) (db : DB) (vv : Option ℚ)
      (evs : List Event) (db1 : DB) (vv1 : Option ℚ),
      processRegisters w si s rid ri regs db vv = .ok (evs, db1, vv1) →
      ∀ j r msg, regs[j]? = some r →
        failMsg (w.readResult si (ri + j)) s r = some msg →
        Event.printErr msg ∈ evs := by
  intro regs
  induction regs with
  | nil =>
      intro ri db vv evs db1 vv1 h j r msg hj hm
      simp at hj
  | cons r rest ih =>
      intro ri db vv evs db1 vv1 h j rr msg hj hm
      obtain ⟨evs0, db0, vv0, evs2, hpr, hrest, rfl⟩ :=
        processRegisters_cons w si s rid ri r rest db vv _ db1 vv1 h
      rcases j with _ | j
      · simp only [List.getElem?_cons_zero, Option.some.injEq] at hj
        subst hj
        rw [Nat.add_zero] at hm
        rcases processRegister_cases w si s rid ri r db vv evs0 db0 vv0 hpr with
          ⟨msg2, hm2, he, _, _⟩ | ⟨v2, _, _, _, _, hok, _⟩
        · rw [hm2] at hm
          injection hm with hmeq
          subst hmeq
          subst he
          exact List.mem_append.mpr (Or.inl (by simp))
        · rw [isFailRead_of_failMsg _ _ _ _ hm] at hok
          simp at hok
      · simp only [List.getElem?_cons_succ] at hj
        refine List.mem_append.mpr (Or.inr ?_)
        refine ih (ri + 1) db0 vv0 _ db1 vv1 hrest j rr msg hj ?_
        rw [show ri + 1 + j = ri + (j + 1) by omega]
        exact hm

/-- Every patch the register loop emits carries a 3-decimal-rounded
value. -/
lemma processRegisters_patchRounded (w : World) (si : Nat) (s : Server) (rid : Nat) :
    ∀ (regs : List Register) (ri : Nat) (db : DB) (vv : Option ℚ)
      (evs : List Event) (db1 : DB) (vv1 : Option ℚ),
      processRegisters w si s rid ri regs db vv = .ok (evs, db1, vv1) →
      ∀ e ∈ evs, ∀ t i c v, e = Event.patch t i c v → round3 v = v := by
  intro regs
  induction regs with
  | nil =>
      intro ri db vv evs db1 vv1 h e he t i c v hev
      simp only [processRegisters_nil, Except.ok.injEq, Prod.mk.injEq] at h
      rw [← h.1] at he
      simp at he
  | cons r rest ih =>
      intro ri db vv evs db1 vv1 h e he t i c v hev
      obtain ⟨evs0, db0, vv0, evs2, hpr, hrest, rfl⟩ :=
        processRegisters_cons w si s rid ri r rest db vv _ db1 vv1 h
      rcases List.mem_append.mp he with hmem | hmem
      · rcases processRegister_cases w si s rid ri r db vv evs0 db0 vv0 hpr with
          ⟨msg, _, he0, _, _⟩ | ⟨v2, he0, _, _, hrnd, _, _⟩
        · subst he0
          subst hev
          simp at hmem
        · subst he0
          subst hev
          simp only [List.mem_cons, List.not_mem_nil, or_false] at hmem
          rcases hmem with h1 | h1 | h1
          · cases h1
          · cases h1
          · injection h1 with e1 e2 e3 e4
            subst e4
            exact hrnd
      · exact ih (ri + 1) db0 vv0 _ db1 vv1 hrest e hmem t i c v hev

/-- The table and row id an event's UPDATE statement matches on. -/
def updateTarget : Event → Option (String × Nat)
  | .patch t i _ _ => some (t, i)
  | .setTimestamp t i _ => some (t, i)
  | _ => none

/-- Every UPDATE of the register loop targets the row id the loop was
given. -/
lemma processRegisters_targets (w : World) (si : Nat) (s : Server) (rid : Nat) :
    ∀ (regs : List Register) (ri : Nat) (db : DB) (vv : Option ℚ)
      (evs : List Event) (db1 : DB) (vv1 : Option ℚ),
      processRegisters w si s rid ri regs db vv = .ok (evs, db1, vv1) →
      ∀ e ∈ evs, ∀ tb i, updateTarget e = some (tb, i) → tb = s.name ∧ i = rid := by
  intro regs
  induction regs with
  | nil =>
      intro ri db vv evs db1 vv1 h e he tb i hev
      simp only [processRegisters_nil, Except.ok.injEq, Prod.mk.injEq] at h
      rw [← h.1] at he
      simp at he
  | cons r rest ih =>
      intro ri db vv evs db1 vv1 h e he tb i hev
      obtain ⟨evs0, db0, vv0, evs2, hpr, hrest, rfl⟩ :=
        processRegisters_cons w si s rid ri r rest db vv _ db1 vv1 h
      rcases List.mem_append.mp he with hmem | hmem
      · rcases processRegister_cases w si s rid ri r db vv evs0 db0 vv0 hpr with
          ⟨msg, _, he0, _, _⟩ | ⟨v2, he0, _, _, _, _, _⟩ <;> subst he0
        · simp only [List.mem_cons, List.not_mem_nil, or_false] at hmem
          rcases hmem with h1 | h1 | h1
          · subst h1; simp [updateTarget] at hev
          · subst h1; simp [updateTarget] at hev
          · subst h1
            simp only [updateTarget, Option.some.injEq, Prod.mk.injEq] at hev
            exact ⟨hev.1.symm, hev.2.symm⟩
        · simp only [List.mem_cons, List.not_mem_nil, or_false] at hmem
          rcases hmem with h1 | h1 | h1
          · subst h1; simp [updateTarget] at hev
          · subst h1; simp [updateTarget] at hev
          · subst h1
            simp only [updateTarget, Option.some.injEq, Prod.mk.injEq] at hev
            exact ⟨hev.1.symm, hev.2.symm⟩
      · exact ih (ri + 1) db0 vv0 _ db1 vv1 hrest e hmem tb i hev

/-- With pairwise distinct server names, a configured server's name
occurs exactly once. -/
lemma countP_name_eq_one (servers : List Server) (s : Server)
    (hnd : (servers.map (fun x => x.name)).Nodup) (hs : s ∈ servers) :
    servers.countP (fun x => x.name = s.name) = 1 := by
  induction servers with
  | nil => simp at hs
  | cons a rest ih =>
      have hnr : a.name ∉ rest.map (fun x => x.name) :=
        (List.nodup_cons.mp (by simpa using hnd)).1
      rw [List.countP_cons]
      rcases List.mem_cons.mp hs with hcase | hcase
      · subst hcase
        have hz : rest.countP (fun x => x.name = s.name) = 0 := by
          rw [List.countP_eq_zero]
          intro x hx
          simp only [decide_eq_true_eq]
          intro hxe
          exact hnr (hxe ▸ List.mem_map_of_mem _ hx)
        simp [hz]
      · have ha : ¬(a.name = s.name) := fun he =>
          hnr (he ▸ List.mem_map_of_mem (fun x => x.name) hcase)
        rw [ih (List.nodup_cons.mp (by simpa using hnd)).2 hcase]
        simp [ha]

/-
C4: register-failure isolation.
-/

/-- C4: when one register read of a connected server fails — either
failure shape — an error message for that server and register is
printed, that register's cell stays null in the server's new row, yet
every register of the server is still attempted in order and every
successful read's decode-convert-round value is persisted: a register
failure never aborts the server's loop. -/
theorem C4_register_failure_isolated (w : World) (si : Nat) (s : Server) (db : DB)
    (vv : Option ℚ) (evs : List Event) (db1 : DB) (vv1 : Option ℚ)
    (h : processServer w si s db vv = .ok (evs, db1, vv1))
    (hconn : w.connectOk si = true) (hwf : WFdb db)
    (htypes : ∀ r ∈ s.registers, r.dataType ∈ ["float32", "uint32", "int32"])
    (hnd : (s.registers.map (fun r => r.name)).Nodup)
    (ri : Nat) (r : Register) (hr : s.registers[ri]? = some r)
    (hfail : isFailRead (w.readResult si ri) = true) :
    ∃ msg row1,
      failMsg (w.readResult si ri) s r = some msg
      ∧ Event.printErr msg ∈ evs
      ∧ db1.rows = db.rows ++ [row1]
      ∧ getCell row1 r.name = some none
      ∧ evs.filter isReadAttempt = expectedReads s s.registers
      ∧ (∀ j rj v, s.registers[j]? = some rj → outcomeAt w si j rj = some v →
          getCell row1 rj.name = some (some v)) := by
  obtain ⟨row1, hrows, _, _, _, _, hcells⟩ :=
    processServer_ok w si s db vv evs db1 vv1 h hwf htypes hnd
  have hmsg : ∃ msg, failMsg (w.readResult si ri) s r = some msg := by
    cases hrr : w.readResult si ri with
    | errorResponse => exact ⟨readErrMsg s r, rfl⟩
    | connClosed => exact ⟨closedErrMsg s r, rfl⟩
    | ok ws => rw [hrr] at hfail; simp [isFailRead] at hfail
  obtain ⟨msg, hm⟩ := hmsg
  refine ⟨msg, row1, hm, ?_, hrows, ?_, ?_, ?_⟩
  · simp only [processServer, hconn, if_true] at h
    cases hpr : processRegisters w si s (insertNullRow db s).2 0 s.registers
        (insertNullRow db s).1 vv with
    | error e => rw [hpr] at h; simp at h
    | ok t =>
        obtain ⟨evsR, dbR, vvR⟩ := t
        rw [hpr] at h
        simp only [Except.ok.injEq, Prod.mk.injEq] at h
        obtain ⟨h1, _, _⟩ := h
        subst h1
        have hmem := processRegisters_errMem w si s _ s.registers 0 _ vv evsR dbR
          vvR hpr ri r msg hr (by rw [Nat.zero_add]; exact hm)
        exact List.mem_cons_of_mem _ (List.mem_append.mpr (Or.inl hmem))
  · have hc := hcells ri r hr
    simpa [hconn, outcomeAt_none_of_fail w si ri r hfail] using hc
  · have hreads := processServer_reads w si s db vv evs db1 vv1 h
    rw [hconn] at hreads
    simpa using hreads
  · intro j rj v hj ho
    have hc := hcells j rj hj
    simpa [hconn, ho] using hc

/-- C4 witness: the concrete turn in which register R fails and
register R2 succeeds. -/
theorem C4_register_failure_isolated_witness :
    ∃ msg row1,
      failMsg (wFailFirst.readResult 0 0) srvW2
          { name := "R", address := 10, count := 2,
            dataType := "uint32", units := "A", conv := none } = some msg
      ∧ Event.printErr msg ∈ c1serverRun.1
      ∧ c1serverRun.2.1.rows = emptyDB.rows ++ [row1]
      ∧ getCell row1 "R" = some none
      ∧ c1serverRun.1.filter isReadAttempt = expectedReads srvW2 srvW2.registers
      ∧ (∀ j rj v, srvW2.registers[j]? = some rj →
          outcomeAt wFailFirst 0 j rj = some v →
          getCell row1 rj.name = some (some v)) :=
  C4_register_failure_isolated wFailFirst 0 srvW2 emptyDB none
    c1serverRun.1 c1serverRun.2.1 c1serverRun.2.2 rfl rfl (by decide)
    (by decide) (by decide) 0
    { name := "R", address := 10, count := 2,
      dataType := "uint32", units := "A", conv := none } rfl rfl

/-
C5: convert before round, stored values rounded.
-/

/-- C5: in a connected, completed server turn, every successfully read
register's stored value is the decoded value with the declared
conversion applied first (identity when none is declared) and then
rounded to 3 decimal places; and every patch the turn emits carries a
value that is a fixed point of 3-decimal rounding — no value leaves the
pipeline unrounded. -/
theorem C5_convert_then_round (w : World) (si : Nat) (s : Server) (db : DB)
    (vv : Option ℚ) (evs : List Event) (db1 : DB) (vv1 : Option ℚ)
    (h : processServer w si s db vv = .ok (evs, db1, vv1))
    (hconn : w.connectOk si = true) (hwf : WFdb db)
    (htypes : ∀ r ∈ s.registers, r.dataType ∈ ["float32", "uint32", "int32"])
    (hnd : (s.registers.map (fun r => r.name)).Nodup) :
    ∃ row1,
      db1.rows = db.rows ++ [row1]
      ∧ (∀ j r ws dv, s.registers[j]? = some r →
          w.readResult si j = .ok ws →
          decodeDispatch r.dataType ws = .assigned dv →
          getCell row1 r.name = some (some (round3 (applyConversion r.conv dv))))
      ∧ (∀ e ∈ evs, ∀ t i c v, e = Event.patch t i c v → round3 v = v) := by
  obtain ⟨row1, hrows, _, _, _, _, hcells⟩ :=
    processServer_ok w si s db vv evs db1 vv1 h hwf htypes hnd
  refine ⟨row1, hrows, ?_, ?_⟩
  · intro j r ws dv hj hws hdd
    have hc := hcells j r hj
    have ho : outcomeAt w si j r = some (round3 (applyConversion r.conv dv)) := by
      simp [outcomeAt, hws, hdd]
    simpa [hconn, ho] using hc
  · simp only [processServer, hconn, if_true] at h
    cases hpr : processRegisters w si s (insertNullRow db s).2 0 s.registers
        (insertNullRow db s).1 vv with
    | error e => rw [hpr] at h; simp at h
    | ok t =>
        obtain ⟨evsR, dbR, vvR⟩ := t
        rw [hpr] at h
        simp only [Except.ok.injEq, Prod.mk.injEq] at h
        obtain ⟨h1, _, _⟩ := h
        subst h1
        intro e he t i c v hev
        rcases List.mem_cons.mp he with hcase | hcase
        · subst hcase; cases hev
        · rcases List.mem_append.mp hcase with hcase2 | hcase2
          · exact processRegisters_patchRounded w si s _ s.registers 0 _ vv evsR
              dbR vvR hpr e hcase2 t i c v hev
          · subst hev
            simp at hcase2

/-- C5 witness: the concrete turn in which register R2 succeeds with
raw words decoding to 5. -/
theorem C5_convert_then_round_witness :
    ∃ row1,
      c1serverRun.2.1.rows = emptyDB.rows ++ [row1]
      ∧ (∀ j r ws dv, srvW2.registers[j]? = some r →
          wFailFirst.readResult 0 j = .ok ws →
          decodeDispatch r.dataType ws = .assigned dv →
          getCell row1 r.name = some (some (round3 (applyConversion r.conv dv))))
      ∧ (∀ e ∈ c1serverRun.1, ∀ t i c v, e = Event.patch t i c v → round3 v = v) :=
  C5_convert_then_round wFailFirst 0 srvW2 emptyDB none
    c1serverRun.1 c1serverRun.2.1 c1serverRun.2.2 rfl rfl (by decide)
    (by decide) (by decide)

/-
C8: updates target only the row created for the server this cycle.
-/

/-- C8: every UPDATE a server's turn emits — cell patches and timestamp
writes — targets exactly the table and row id assigned at that turn's
record creation; and running two consecutive cycles from an empty
database yields one row per server in the first cycle and a second
distinct row per server in the second (ids 1 and 2 in each server's
table), the second cycle leaving every row of the first cycle
untouched. -/
theorem C8_updates_target_own_row (w1 w2 : World) (servers : List Server)
    (t1 : List Event) (db1 : DB) (t2 : List Event) (db2 : DB)
    (h1 : runCycle w1 servers emptyDB = .ok (t1, db1))
    (h2 : runCycle w2 servers db1 = .ok (t2, db2))
    (hcfg : ∀ s ∈ servers,
      (∀ r ∈ s.registers, r.dataType ∈ ["float32", "uint32", "int32"])
      ∧ (s.registers.map (fun r => r.name)).Nodup) :
    db1.rows.length = servers.length
    ∧ db2.rows.length = 2 * servers.length
    ∧ db2.rows.take db1.rows.length = db1.rows
    ∧ ((servers.map (fun s => s.name)).Nodup →
        ∀ s ∈ servers, (tableRows db2 s.name).map (fun row => row.id) = [1, 2])
    ∧ (∀ (w : World) (si : Nat) (s : Server) (db : DB) (vv : Option ℚ)
          (evs : List Event) (db' : DB) (vv' : Option ℚ),
        processServer w si s db vv = .ok (evs, db', vv') →
        ∀ e ∈ evs, ∀ tb i, updateTarget e = some (tb, i) →
          tb = s.name ∧ i = (tableRows db s.name).length + 1) := by
  have hwfe : WFdb emptyDB := by intro t ht; simp [emptyDB] at ht
  unfold runCycle at h1 h2
  cases hrs1 : runServers w1 0 servers emptyDB none with
  | error e => rw [hrs1] at h1; simp at h1
  | ok u1 =>
      obtain ⟨evsA, dbA, vvA⟩ := u1
      rw [hrs1] at h1
      simp only [Except.ok.injEq, Prod.mk.injEq] at h1
      obtain ⟨_, hdbA⟩ := h1
      subst hdbA
      cases hrs2 : runServers w2 0 servers dbA none with
      | error e => rw [hrs2] at h2; simp at h2
      | ok u2 =>
          obtain ⟨evsB, dbB, vvB⟩ := u2
          rw [hrs2] at h2
          simp only [Except.ok.injEq, Prod.mk.injEq] at h2
          obtain ⟨_, hdbB⟩ := h2
          subst hdbB
          obtain ⟨n1, hrows1, hlen1, _, hwf1, hcnt1⟩ :=
            runServers_master w1 servers 0 emptyDB none _ dbA vvA hrs1 hwfe hcfg
          obtain ⟨n2, hrows2, hlen2, _, hwf2, hcnt2⟩ :=
            runServers_master w2 servers 0 dbA none _ dbB vvB hrs2 hwf1 hcfg
          have hlenA : dbA.rows.length = servers.length := by
            rw [hrows1]
            simpa [emptyDB] using hlen1
          refine ⟨hlenA, ?_, ?_, ?_, ?_⟩
          · rw [hrows2, List.length_append, hlenA, hlen2]
            omega
          · rw [hrows2]
            exact List.take_left dbA.rows n2
          · intro hndnames s hs
            have hemp : (tableRows emptyDB s.name).length = 0 := by
              simp [tableRows, emptyDB]
            have hcA : (tableRows dbA s.name).length = 1 := by
              rw [hcnt1 s.name, countP_name_eq_one servers s hndnames hs, hemp]
            have hcB : (tableRows dbB s.name).length = 2 := by
              rw [hcnt2 s.name, countP_name_eq_one servers s hndnames hs, hcA]
            have hids := WFdb_total dbB hwf2 s.name
            rw [hcB] at hids
            rw [hids]
            rfl
          · intro w si s db vv evs db' vv' hps e he tb i hev
            cases hconn : w.connectOk si with
            | false =>
                simp only [processServer, hconn, Bool.false_eq_true, if_false,
                  Except.ok.injEq, Prod.mk.injEq] at hps
                obtain ⟨hp1, _, _⟩ := hps
                subst hp1
                simp only [List.mem_cons, List.not_mem_nil, or_false] at he
                rcases he with hc1 | hc1 | hc1
                · subst hc1; simp [updateTarget] at hev
                · subst hc1; simp [updateTarget] at hev
                · subst hc1
                  simp only [updateTarget, Option.some.injEq, Prod.mk.injEq] at hev
                  exact ⟨hev.1.symm, hev.2.symm⟩
            | true =>
                simp only [processServer, hconn, if_true] at hps
                cases hpr : processRegisters w si s (insertNullRow db s).2 0
                    s.registers (insertNullRow db s).1 vv with
                | error e2 => rw [hpr] at hps; simp at hps
                | ok u =>
                    obtain ⟨evsR, dbR, vvR⟩ := u
                    rw [hpr] at hps
                    simp only [Except.ok.injEq, Prod.mk.injEq] at hps
                    obtain ⟨hp1, _, _⟩ := hps
                    subst hp1
                    rcases List.mem_cons.mp he with hc1 | hc1
                    · subst hc1; simp [updateTarget] at hev
                    · rcases List.mem_append.mp hc1 with hc2 | hc2
                      · exact processRegisters_targets w si s _ s.registers 0 _
                          vv evsR dbR vvR hpr e hc2 tb i hev
                      · simp only [List.mem_cons, List.not_mem_nil, or_false] at hc2
                        rcases hc2 with hc3 | hc3
                        · subst hc3
                          simp only [updateTarget, Option.some.injEq,
                            Prod.mk.injEq] at hev
                          exact ⟨hev.1.symm, hev.2.symm⟩
                        · subst hc3; simp [updateTarget] at hev

/-- First concrete cycle for the two-cycle scenario. -/
def c8a : List Event × DB :=
  ((runCycle wFailFirst [srvW2] emptyDB).toOption).getD ([], emptyDB)

/-- Second concrete cycle, run on the database the first one left. -/
def c8b : List Event × DB :=
  ((runCycle wNoConn [srvW2] c8a.2).toOption).getD ([], emptyDB)

/-- C8 witness: two consecutive concrete cycles over one server. -/
theorem C8_updates_target_own_row_witness :
    c8a.2.rows.length = [srvW2].length
    ∧ c8b.2.rows.length = 2 * [srvW2].length
    ∧ c8b.2.rows.take c8a.2.rows.length = c8a.2.rows
    ∧ (([srvW2].map (fun s => s.name)).Nodup →
        ∀ s ∈ [srvW2], (tableRows c8b.2 s.name).map (fun row => row.id) = [1, 2])
    ∧ (∀ (w : World) (si : Nat) (s : Server) (db : DB) (vv : Option ℚ)
          (evs : List Event) (db' : DB) (vv' : Option ℚ),
        processServer w si s db vv = .ok (evs, db', vv') →
        ∀ e ∈ evs, ∀ tb i, updateTarget e = some (tb, i) →
          tb = s.name ∧ i = (tableRows db s.name).length + 1) :=
  C8_updates_target_own_row wFailFirst wNoConn [srvW2] c8a.1 c8a.2 c8b.1 c8b.2
    rfl rfl (by decide)

/-
C6: malformed payloads abort loudly.
-/

/-- A malformed payload at any register aborts the whole register
loop. -/
lemma processRegisters_malformed_error (w : World) (si : Nat) (s : Server)
    (rid : Nat) :
    ∀ (regs : List Register) (ri : Nat) (db : DB) (vv : Option ℚ)
      (j : Nat) (r : Register) (ws : List Nat),
      regs[j]? = some r →
      w.readResult si (ri + j) = .ok ws →
      decodeDispatch r.dataType ws = .malformed →
      processRegisters w si s rid ri regs db vv = .error () := by
  intro regs
  induction regs with
  | nil =>
      intro ri db vv j r ws hj hrr hdd
      simp at hj
  | cons r rest ih =>
      intro ri db vv j rr ws hj hrr hdd
      rcases j with _ | j
      · simp only [List.getElem?_cons_zero, Option.some.injEq] at hj
        subst hj
        rw [Nat.add_zero] at hrr
        simp only [processRegisters]
        rw [processRegister_malformed w si s rid ri r db vv ws hrr hdd]
      · simp only [List.getElem?_cons_succ] at hj
        simp only [processRegisters]
        cases hpr : processRegister w si s rid ri r db vv with
        | error e => rfl
        | ok u =>
            obtain ⟨evs0, db0, vv0⟩ := u
            simp only
            rw [ih (ri + 1) db0 vv0 j rr ws hj
              (by rw [show ri + 1 + j = ri + (j + 1) by omega]; exact hrr) hdd]

/-- A malformed payload at any register of a connected server aborts the
whole server turn. -/
lemma processServer_malformed_error (w : World) (si : Nat) (s : Server) (db : DB)
    (vv : Option ℚ) (ri : Nat) (r : Register) (ws : List Nat)
    (hconn : w.connectOk si = true)
    (hr : s.registers[ri]? = some r)
    (hrr : w.readResult si ri = .ok ws)
    (hdd : decodeDispatch r.dataType ws = .malformed) :
    processServer w si s db vv = .error () := by
  simp only [processServer, hconn, if_true]
  rw [processRegisters_malformed_error w si s _ s.registers 0 _ vv ri r ws hr
    (by rw [Nat.zero_add]; exact hrr) hdd]

/-- A malformed payload at any register of any reachable server aborts
the whole server loop. -/
lemma runServers_malformed_error (w : World) :
    ∀ (servers : List Server) (si0 : Nat) (db : DB) (vv : Option ℚ)
      (j : Nat) (s : Server) (ri : Nat) (r : Register) (ws : List Nat),
      servers[j]? = some s →
      w.connectOk (si0 + j) = true →
      w.readResult (si0 + j) ri = .ok ws →
      s.registers[ri]? = some r →
      decodeDispatch r.dataType ws = .malformed →
      runServers w si0 servers db vv = .error () := by
  intro servers
  induction servers with
  | nil =>
      intro si0 db vv j s ri r ws hj
      simp at hj
  | cons s0 rest ih =>
      intro si0 db vv j s ri r ws hj hconn hrr hr hdd
      rcases j with _ | j
      · simp only [List.getElem?_cons_zero, Option.some.injEq] at hj
        subst hj
        rw [Nat.add_zero] at hconn hrr
        simp only [runServers]
        rw [processServer_malformed_error w si0 s0 db vv ri r ws hconn hr hrr hdd]
      · simp only [List.getElem?_cons_succ] at hj
        simp only [runServers]
        cases hps : processServer w si0 s0 db vv with
        | error e => rfl
        | ok u =>
            obtain ⟨evs0, db0, vv0⟩ := u
            simp only
            rw [ih (si0 + 1) db0 vv0 j s ri r ws hj
              (by rw [show si0 + 1 + j = si0 + (j + 1) by omega]; exact hconn)
              (by rw [show si0 + 1 + j = si0 + (j + 1) by omega]; exact hrr) hr hdd]

/-- C6: for the three declared wire types the Decoder fails with
MalformedPayload exactly when the supplied word count differs from the
declared count of 2; and when a read of a reachable server returns such
a malformed payload, the whole run aborts with a propagated error — the
failure is surfaced loudly, never recorded as a null value. -/
theorem C6_malformed_payload_loud :
    (∀ dt ws, dt ∈ ["float32", "uint32", "int32"] →
      (decodeDispatch dt ws = DecodeOutcome.malformed ↔ ws.length ≠ 2))
    ∧ (∀ (w : World) (servers : List Server) (db : DB) (si : Nat) (s : Server)
          (ri : Nat) (r : Register) (ws : List Nat),
        servers[si]? = some s → s.registers[ri]? = some r →
        w.connectOk si = true → w.readResult si ri = .ok ws →
        decodeDispatch r.dataType ws = DecodeOutcome.malformed →
        runCycle w servers db = .error ()) := by
  constructor
  · intro dt ws hdt
    have hiff : decodeWords32 ws = none ↔ ws.length ≠ 2 := by
      constructor
      · intro hnone h2
        have := (decodeWords32_isSome_iff ws).mpr h2
        rw [hnone] at this
        simp at this
      · intro h2
        cases hw : decodeWords32 ws with
        | none => rfl
        | some b =>
            exact absurd ((decodeWords32_isSome_iff ws).mp (by rw [hw]; rfl)) h2
    simp only [List.mem_cons, List.not_mem_nil, or_false] at hdt
    rcases hdt with h | h | h <;> subst h <;>
      simp only [decodeDispatch, String.reduceEq, reduceIte] <;>
      (cases hw : decodeWords32 ws with
        | none => simpa using hiff.mp hw
        | some b =>
            simp only
            constructor
            · intro hfalse; cases hfalse
            · intro h2
              rw [hiff.mpr h2] at hw
              cases hw)
  · intro w servers db si s ri r ws hs hr hconn hrr hdd
    unfold runCycle
    rw [runServers_malformed_error w servers 0 db none si s ri r ws hs
      (by rw [Nat.zero_add]; exact hconn) (by rw [Nat.zero_add]; exact hrr) hr hdd]

/-- A world returning a one-word payload for every read. -/
def wMalformed : World :=
  { connectOk := fun _ => true, readResult := fun _ _ => .ok [7] }

/-- C6 witness: the decoder rejects a one-word payload for a 32-bit
register and the concrete cycle aborts with the propagated error. -/
theorem C6_malformed_payload_loud_witness :
    (decodeDispatch "float32" [7] = DecodeOutcome.malformed ↔ [7].length ≠ 2)
    ∧ runCycle wMalformed [srvW] emptyDB = .error () :=
  ⟨C6_malformed_payload_loud.1 "float32" [7] (by decide),
   C6_malformed_payload_loud.2 wMalformed [srvW] emptyDB 0 srvW 0
     { name := "R", address := 10, count := 2,
       dataType := "uint32", units := "A", conv := none } [7]
     rfl rfl rfl rfl (by decide)⟩
